import Mathlib

/-!
Verification of the suduko-solver repository (Rust) against its specification.

The development shallowly embeds the code of `src/sudoku.rs` (the `Sudoku`
trait with its derived predicates `filled`/`legal`/`solved`, and the free
backtracking function `backtrack`) and of the three variant implementations
in `src/variants/{standard,mini,hyper}.rs`.

Modelling conventions:
* `Cell = Option<u8>` becomes `Cell := Option Nat` (cell values are small and
  no arithmetic overflow is possible anywhere in the code).
* A grid `[Cell; N]` (a fixed-size Rust array) becomes a `List Cell` together
  with the hypothesis that its length is the array's type-level constant
  (81 or 36); the length is invariant, as in Rust.
* Rust iterator adapters `skip`/`take`/`step_by`/`chunks_exact` become
  `List.drop`/`List.take`/`stepBy`/`chunksExact`.  `stepBy` and `chunksExact`
  are defined by their well-known denotations (`step_by(k)` yields the
  elements at indices `0, k, 2k, …`, i.e. `⌈len/k⌉` of them; `chunks_exact(k)`
  yields the `⌊len/k⌋` complete chunks, the `m`-th being the elements
  `m*k … m*k+k-1`), which keeps every definition kernel-computable.
* In-place mutation becomes explicit state passing: `backtrack` takes and
  returns the cell list, and a failing call returns the (restored) list so
  that the claims about the post-failure state can be expressed.
* A Rust `panic!` becomes an `Option`-valued function returning `none`
  (used for the variants' checked `set`, claim C10).
-/

/-- `Cell = Option<u8>`: `none` is an empty cell, `some v` a set value. -/
abbrev Cell := Option Nat

/-- The key realising Rust's derived `Ord` on `Option<u8>`:
`None < Some v` and `Some v ≤ Some w ↔ v ≤ w`. -/
def cellKey : Cell → Nat
  | none => 0
  | some v => v + 1

/-- The order used by `Vec::sort` on `Vec<Option<u8>>` in `legal`/`solved`. -/
def cellLE (a b : Cell) : Prop := cellKey a ≤ cellKey b

instance : DecidableRel cellLE := fun a b => by unfold cellLE; infer_instance

instance : IsTotal Cell cellLE := ⟨fun a b => Nat.le_total (cellKey a) (cellKey b)⟩

instance : IsTrans Cell cellLE := ⟨fun _ _ _ h h' => Nat.le_trans h h'⟩

theorem cellKey_inj {a b : Cell} (h : cellKey a = cellKey b) : a = b := by
  cases a <;> cases b <;> (simp [cellKey] at h ⊢; try omega)

/-- `group.sort()` (a sorted permutation; since the order on `Option<u8>` is
antisymmetric the sorted permutation is unique, so the choice of sorting
algorithm is irrelevant). -/
def sortCells (l : List Cell) : List Cell := List.insertionSort cellLE l

/-- Rust `step_by(k)` on the iterator of `l`: the elements at indices
`0, k, 2k, …`; there are `⌈len/k⌉ = (len + (k-1)) / k` of them. -/
def stepBy (k : Nat) (l : List α) : List α :=
  (List.range ((l.length + (k - 1)) / k)).filterMap (fun m => l[m * k]?)

/-- Rust `chunks_exact(k)`: the `⌊len/k⌋` complete chunks of `l`, the `m`-th
chunk holding the elements at indices `m*k … m*k + k - 1`; any incomplete
final chunk is dropped. -/
def chunksExact (k : Nat) (l : List α) : List (List α) :=
  (List.range (l.length / k)).map (fun m => (l.drop (m * k)).take k)

/-- Read a grid through an explicit index list (`I.map (cells.getD · none)`).
Used to state that every group is a view of the grid through a fixed set of
cell indices. -/
def mapIdx (cells : List Cell) (I : List Nat) : List Cell :=
  I.map (fun j => cells.getD j none)

section CombinatorLemmas

variable {α : Type _} {β : Type _}

theorem getElem?_isSome_of_lt {l : List α} {n : Nat} (h : n < l.length) :
    (l[n]?).isSome := by
  rw [List.getElem?_eq_getElem h]; rfl

theorem length_filterMap_all_isSome (f : β → Option α) :
    ∀ (L : List β), (∀ x ∈ L, (f x).isSome) → (L.filterMap f).length = L.length
  | [], _ => rfl
  | x :: L, h => by
    have hx : (f x).isSome := h x (List.mem_cons_self x L)
    obtain ⟨a, ha⟩ := Option.isSome_iff_exists.mp hx
    have hL : ∀ y ∈ L, (f y).isSome := fun y hy => h y (List.mem_cons_of_mem x hy)
    simp [List.filterMap_cons, ha, length_filterMap_all_isSome f L hL]

theorem getElem?_filterMap_all_isSome (f : β → Option α) :
    ∀ (L : List β), (∀ x ∈ L, (f x).isSome) →
      ∀ m : Nat, (L.filterMap f)[m]? = (L[m]?).bind f
  | [], _, m => by simp
  | x :: L, h, m => by
    have hx : (f x).isSome := h x (List.mem_cons_self x L)
    obtain ⟨a, ha⟩ := Option.isSome_iff_exists.mp hx
    have hL : ∀ y ∈ L, (f y).isSome := fun y hy => h y (List.mem_cons_of_mem x hy)
    cases m with
    | zero => simp [List.filterMap_cons, ha]
    | succ m =>
      simp only [List.filterMap_cons, ha, List.getElem?_cons_succ]
      exact getElem?_filterMap_all_isSome f L hL m

/-- Every index produced by the `stepBy` denotation is in bounds. -/
theorem stepBy_idx_lt (k : Nat) (len : Nat) {m : Nat}
    (hm : m < (len + (k - 1)) / k) : m * k < len := by
  rcases Nat.eq_zero_or_pos k with hk | hk
  · subst hk; simp at hm
  · have h1 : (m + 1) * k ≤ ((len + (k - 1)) / k) * k := Nat.mul_le_mul_right k hm
    have h2 : ((len + (k - 1)) / k) * k ≤ len + (k - 1) := Nat.div_mul_le_self _ _
    have h3 : m * k + k ≤ len + (k - 1) := by
      calc m * k + k = (m + 1) * k := by ring
      _ ≤ _ := le_trans h1 h2
    omega

theorem length_stepBy (k : Nat) (l : List α) :
    (stepBy k l).length = (l.length + (k - 1)) / k := by
  have h : ∀ m ∈ List.range ((l.length + (k - 1)) / k), (l[m * k]?).isSome := by
    intro m hm
    rw [List.mem_range] at hm
    exact getElem?_isSome_of_lt (stepBy_idx_lt k l.length hm)
  unfold stepBy
  rw [length_filterMap_all_isSome _ _ h, List.length_range]

theorem getElem?_stepBy (k : Nat) (l : List α) (m : Nat) :
    (stepBy k l)[m]? =
      if m < (l.length + (k - 1)) / k then l[m * k]? else none := by
  unfold stepBy
  rw [getElem?_filterMap_all_isSome]
  · rcases Nat.lt_or_ge m ((l.length + (k - 1)) / k) with h | h
    · rw [List.getElem?_range h]; simp [h]
    · rw [List.getElem?_eq_none (by simpa using h)]
      simp [Nat.not_lt.mpr h]
  · intro x hx
    rw [List.mem_range] at hx
    exact getElem?_isSome_of_lt (stepBy_idx_lt k l.length hx)

theorem length_chunksExact (k : Nat) (l : List α) :
    (chunksExact k l).length = l.length / k := by
  simp [chunksExact]

theorem getElem?_chunksExact (k : Nat) (l : List α) (m : Nat) :
    (chunksExact k l)[m]? =
      if m < l.length / k then some ((l.drop (m * k)).take k) else none := by
  unfold chunksExact
  rcases Nat.lt_or_ge m (l.length / k) with h | h
  · rw [List.getElem?_map, List.getElem?_range h]; simp [h]
  · rw [List.getElem?_map, List.getElem?_eq_none (by simpa using h)]
    simp [Nat.not_lt.mpr h]

/-- `skip a` then `take b` on a long-enough list is the view through the
index window `a, a+1, …, a+b-1`. -/
theorem dropTake_eq_mapIdx (cells : List Cell) (a b : Nat)
    (h : a + b ≤ cells.length) :
    (cells.drop a).take b = mapIdx cells ((List.range b).map (fun j => a + j)) := by
  apply List.ext_getElem?
  intro m
  rw [List.getElem?_take, List.getElem?_drop]
  unfold mapIdx
  rw [List.map_map, List.getElem?_map]
  rcases Nat.lt_or_ge m b with hm | hm
  · rw [List.getElem?_range hm]
    have : a + m < cells.length := by omega
    simp [hm, List.getElem?_eq_getElem this, List.getD_eq_getElem?_getD,
      Function.comp]
  · rw [List.getElem?_eq_none (l := List.range b) (by simpa using hm)]
    simp [Nat.not_lt.mpr hm]

/-- `getD` through `drop`. -/
theorem getD_drop (cells : List Cell) (a m : Nat) :
    (cells.drop a).getD m none = cells.getD (a + m) none := by
  rw [List.getD_eq_getElem?_getD, List.getD_eq_getElem?_getD, List.getElem?_drop]

theorem filterMap_eq_map_of_all_some (f : β → Option α) (g : β → α) :
    ∀ (L : List β), (∀ x ∈ L, f x = some (g x)) → L.filterMap f = L.map g
  | [], _ => rfl
  | x :: L, h => by
    have hx := h x (List.mem_cons_self x L)
    have hL : ∀ y ∈ L, f y = some (g y) := fun y hy => h y (List.mem_cons_of_mem x hy)
    simp [List.filterMap_cons, hx, filterMap_eq_map_of_all_some f g L hL]

/-- On cell lists, `stepBy` is the view through the indices `0, k, 2k, …`. -/
theorem stepBy_eq_mapIdx (k : Nat) (cells : List Cell) :
    stepBy k cells =
      mapIdx cells ((List.range ((cells.length + (k - 1)) / k)).map (fun m => m * k)) := by
  unfold stepBy mapIdx
  rw [List.map_map]
  apply filterMap_eq_map_of_all_some
  intro m hm
  rw [List.mem_range] at hm
  have h := stepBy_idx_lt k cells.length hm
  simp [List.getElem?_eq_getElem h, List.getD_eq_getElem?_getD, Function.comp]

end CombinatorLemmas

/-! ## The duplicate checks of `Sudoku::legal` and `Sudoku::solved`

`legal` sorts each group and checks
`group.windows(2).all(|w| w[0] != w[1] || w[0].is_none())`;
`solved` sorts and checks `group[0] != None && group.windows(2).all(|w| w[0] != w[1])`.
-/

/-- `windows(2).all(|w| w[0] != w[1] || w[0].is_none())` (from `legal`). -/
def pairsOk : List Cell → Bool
  | a :: b :: rest => (decide (a ≠ b) || decide (a = none)) && pairsOk (b :: rest)
  | _ => true

/-- `windows(2).all(|w| w[0] != w[1])` (from `solved`). -/
def allDiff : List Cell → Bool
  | a :: b :: rest => decide (a ≠ b) && allDiff (b :: rest)
  | _ => true

/-- One group's check inside `Sudoku::legal`. -/
def legalGroup (g : List Cell) : Bool := pairsOk (sortCells g)

/-- One group's check inside `Sudoku::solved`.  `getD 0` models the `group[0]`
indexing; every group produced in this codebase is non-empty, so the Rust
indexing never fails. -/
def solvedGroup (g : List Cell) : Bool :=
  let s := sortCells g
  decide (s.getD 0 none ≠ none) && allDiff s

theorem sortCells_sorted (g : List Cell) : List.Sorted cellLE (sortCells g) :=
  List.sorted_insertionSort cellLE g

theorem sortCells_perm (g : List Cell) : (sortCells g).Perm g :=
  List.perm_insertionSort cellLE g

theorem pairsOk_iff : ∀ (s : List Cell), List.Sorted cellLE s →
    (pairsOk s = true ↔ ∀ v : Nat, s.count (some v) ≤ 1)
  | [], _ => by simp [pairsOk]
  | [a], _ => by
    simp only [pairsOk, true_iff]
    intro v
    exact le_trans (List.count_le_length _ _) (by simp)
  | a :: b :: t, hs => by
    have hs' : List.Sorted cellLE (b :: t) := hs.of_cons
    have hab : cellLE a b := (List.pairwise_cons.mp hs).1 b (List.mem_cons_self b t)
    have IH := pairsOk_iff (b :: t) hs'
    simp only [pairsOk, Bool.and_eq_true, Bool.or_eq_true, decide_eq_true_eq]
    constructor
    · rintro ⟨h1, h2⟩ v
      by_cases hav : a = some v
      · have hne : a ≠ b := by
          rcases h1 with h | h
          · exact h
          · exact absurd (h ▸ hav) (by simp)
        have hkey : cellKey a < cellKey b := by
          have h1' : cellKey a ≤ cellKey b := hab
          have h2' : cellKey a ≠ cellKey b := fun hc => hne (cellKey_inj hc)
          omega
        have hnot : (some v) ∉ (b :: t) := by
          intro hmem
          have hle : cellKey b ≤ cellKey (some v) := by
            rcases List.mem_cons.mp hmem with rfl | hmem'
            · exact le_refl _
            · exact (List.pairwise_cons.mp hs').1 _ hmem'
          rw [← hav] at hle
          omega
        rw [List.count_cons, List.count_eq_zero.mpr hnot]
        split <;> omega
      · rw [List.count_cons, if_neg (by simpa using hav)]
        simpa using (IH.mp h2) v
    · intro h
      refine ⟨?_, IH.mpr (fun v =>
          le_trans ((List.sublist_cons_self a (b :: t)).count_le _) (h v))⟩
      by_contra hcon
      push_neg at hcon
      obtain ⟨hab', hnn⟩ := hcon
      obtain ⟨v, rfl⟩ := Option.ne_none_iff_exists'.mp hnn
      have hv := h v
      rw [List.count_cons, List.count_cons] at hv
      simp [← hab'] at hv

theorem perm_count_cell {l₁ l₂ : List Cell} (h : l₁.Perm l₂) (c : Cell) :
    l₁.count c = l₂.count c := by
  rw [List.count_eq_countP, List.count_eq_countP]
  exact h.countP_eq _

theorem allDiff_eq_pairsOk_of_all_isSome :
    ∀ (s : List Cell), (∀ c ∈ s, c.isSome = true) → allDiff s = pairsOk s
  | [], _ => rfl
  | [_], _ => rfl
  | a :: b :: t, h => by
    have ha : a.isSome := h a (List.mem_cons_self _ _)
    have hnn : ¬(a = none) := by cases a <;> simp_all
    have ht : ∀ c ∈ b :: t, c.isSome = true :=
      fun c hc => h c (List.mem_cons_of_mem a hc)
    simp [allDiff, pairsOk, hnn, allDiff_eq_pairsOk_of_all_isSome (b :: t) ht]

/-- `Sudoku::legal`'s per-group check holds iff no set value occurs twice in
the group (empty cells never conflict). -/
theorem legalGroup_iff (g : List Cell) :
    legalGroup g = true ↔ ∀ v : Nat, g.count (some v) ≤ 1 := by
  unfold legalGroup
  rw [pairsOk_iff (sortCells g) (sortCells_sorted g)]
  constructor <;> intro h v
  · exact le_trans (le_of_eq (perm_count_cell (sortCells_perm g) _).symm) (h v)
  · exact le_trans (le_of_eq (perm_count_cell (sortCells_perm g) _)) (h v)

/-- `Sudoku::solved`'s per-group check holds iff every cell of the group is
set and no value occurs twice. -/
theorem solvedGroup_iff (g : List Cell) (hne : g ≠ []) :
    solvedGroup g = true ↔
      (∀ c ∈ g, c.isSome = true) ∧ ∀ v : Nat, g.count (some v) ≤ 1 := by
  unfold solvedGroup
  have hperm := sortCells_perm g
  have hsorted := sortCells_sorted g
  have hmem : ∀ c, c ∈ sortCells g ↔ c ∈ g := fun c => hperm.mem_iff
  have hcount : ∀ v : Nat, (sortCells g).count (some v) = g.count (some v) :=
    fun v => perm_count_cell hperm _
  have hsne : sortCells g ≠ [] := by
    intro hnil
    exact hne (List.eq_nil_of_length_eq_zero (by rw [← hperm.length_eq, hnil]; rfl))
  obtain ⟨a, s, hs⟩ := List.exists_cons_of_ne_nil hsne
  rw [hs] at hsorted hmem hcount ⊢
  simp only [List.getD_cons_zero, Bool.and_eq_true, decide_eq_true_eq]
  constructor
  · rintro ⟨hhead, hdiff⟩
    have hall : ∀ c ∈ a :: s, c.isSome = true := by
      intro c hc
      rcases List.mem_cons.mp hc with rfl | hc'
      · cases c <;> simp_all
      · have hle : cellLE a c := (List.pairwise_cons.mp hsorted).1 _ hc'
        have hk : 1 ≤ cellKey a := by cases a <;> simp_all [cellKey]
        have : 1 ≤ cellKey c := le_trans hk hle
        cases c <;> simp_all [cellKey]
    refine ⟨fun c hc => hall c ((hmem c).mpr hc), fun v => ?_⟩
    rw [← hcount v]
    exact (pairsOk_iff _ hsorted).mp
      (by rw [← allDiff_eq_pairsOk_of_all_isSome _ hall]; exact hdiff) v
  · rintro ⟨hall, hcnt⟩
    have hall' : ∀ c ∈ a :: s, c.isSome = true :=
      fun c hc => hall c ((hmem c).mp hc)
    have ha : a.isSome := hall' a (List.mem_cons_self _ _)
    refine ⟨by cases a <;> simp_all, ?_⟩
    rw [allDiff_eq_pairsOk_of_all_isSome _ hall']
    exact (pairsOk_iff _ hsorted).mpr (fun v => by rw [hcount v]; exact hcnt v)

/-! ## The `Sudoku` trait, its derived methods, and `backtrack` (src/sudoku.rs) -/

/-- The capability surface of the `Sudoku` trait used by `backtrack` and the
derived predicates.  `n` is the variant's cell count (`cells().len()`, the
type-level length of the underlying Rust array); `values` is `cell_values()`
(the range `1..=N` iterated in ascending order); the remaining fields are the
per-variant group views. -/
structure SudokuOps where
  n : Nat
  values : List Nat
  rows : List Cell → List (List Cell)
  columns : List Cell → List (List Cell)
  grids : List Cell → List (List Cell)
  groupsOf : List Cell → Nat → List (List Cell)

/-- `Sudoku::groups`: all rows, then all columns, then all grids. -/
def SudokuOps.groups (ops : SudokuOps) (cells : List Cell) : List (List Cell) :=
  ops.rows cells ++ ops.columns cells ++ ops.grids cells

/-- `Sudoku::filled`. -/
def SudokuOps.filled (_ops : SudokuOps) (cells : List Cell) : Bool :=
  cells.all (fun c => c.isSome)

/-- `Sudoku::legal`. -/
def SudokuOps.legal (ops : SudokuOps) (cells : List Cell) : Bool :=
  (ops.groups cells).all legalGroup

/-- `Sudoku::solved`. -/
def SudokuOps.solved (ops : SudokuOps) (cells : List Cell) : Bool :=
  (ops.groups cells).all solvedGroup

/-- Result of `backtrack`/`solve` with the final grid made explicit (the Rust
functions mutate the grid in place and return `Result<(), &'static str>`). -/
inductive SolveResult where
  | ok (cells : List Cell)
  | err (msg : String) (cells : List Cell)
deriving DecidableEq, Repr

/-- `Err("cannot solve illegal position")`. -/
def illegalMsg : String := "cannot solve illegal position"

/-- `Err("suduko cannot be solved")`. -/
def noSolutionMsg : String := "suduko cannot be solved"

mutual

/-- The free function `backtrack(suduko, pos)` of src/sudoku.rs.  The bound
check `pos >= suduko.cells().len()` compares against the array's constant
length `ops.n`; `suduko.get(pos)` is `cells.getD pos none` (the read is only
reached with `pos < ops.n`, so on grids of length `ops.n` the default is
never taken).  The candidate exclusion set (`FxHashSet` in Rust) is modelled
by list membership; `suduko.set(pos, Some(value))` is `cells.set`, whose
range check cannot fire because `value` is drawn from `cell_values()`. -/
def backtrack (ops : SudokuOps) (cells : List Cell) (pos : Nat) : SolveResult :=
  if ops.legal cells = false then .err illegalMsg cells
  else if _h : pos ≥ ops.n then .ok cells
  else if (cells.getD pos none).isSome then backtrack ops cells (pos + 1)
  else
    let illegal := (ops.groupsOf cells pos).flatten
    let possible := ops.values.filter (fun value => !(illegal.contains (some value)))
    tryValues ops cells pos possible
termination_by (ops.n + 1 - pos, 0)

/-- The `for value in possible` loop of `backtrack`, threading the mutated
grid: tentatively `set(pos, Some(value))` and recurse; on success propagate
immediately, on failure continue on the grid the failed call left behind;
when the loop exhausts, `set(pos, None)` and fail with "suduko cannot be
solved". -/
def tryValues (ops : SudokuOps) (cells : List Cell) (pos : Nat) (vs : List Nat) :
    SolveResult :=
  match vs with
  | [] => .err noSolutionMsg (cells.set pos none)
  | value :: rest =>
    match backtrack ops (cells.set pos (some value)) (pos + 1) with
    | .ok c => .ok c
    | .err _ c => tryValues ops c pos rest
termination_by (ops.n - pos, vs.length)

end

/-- `Sudoku::solve`: `backtrack(self, 0)`. -/
def SudokuOps.solve (ops : SudokuOps) (cells : List Cell) : SolveResult :=
  backtrack ops cells 0

/-! ## Well-formedness of a variant's geometry

`OpsSpec` connects a variant's group views to explicit index sets: `allI`
lists the index sets underlying `groups()` (rows, then columns, then grids)
and `gOfI i` those underlying `groups_of(i)`.  The per-variant proofs of
these fields are where the iterator chains of the variant files are related
to plain index arithmetic. -/
structure OpsSpec (ops : SudokuOps) where
  allI : List (List Nat)
  gOfI : Nat → List (List Nat)
  groups_eq : ∀ cells : List Cell, cells.length = ops.n →
    ops.groups cells = allI.map (mapIdx cells)
  groupsOf_eq : ∀ cells : List Cell, cells.length = ops.n →
    ∀ i, i < ops.n → ops.groupsOf cells i = (gOfI i).map (mapIdx cells)
  gOf_sub : ∀ i, i < ops.n → ∀ I ∈ gOfI i, I ∈ allI
  gOf_mem : ∀ i, i < ops.n → ∀ I ∈ gOfI i, i ∈ I
  idx_lt : ∀ I ∈ allI, ∀ j ∈ I, j < ops.n
  allI_ne : ∀ I ∈ allI, I ≠ []
  values_sorted : List.Pairwise (· < ·) ops.values

section GenericSolver

variable {ops : SudokuOps}

/-- `legal` through the index sets: no set value occurs twice in any group. -/
theorem legal_iff (S : OpsSpec ops) (cells : List Cell) (h : cells.length = ops.n) :
    ops.legal cells = true ↔
      ∀ I ∈ S.allI, ∀ v : Nat, (mapIdx cells I).count (some v) ≤ 1 := by
  unfold SudokuOps.legal
  rw [S.groups_eq cells h, List.all_eq_true]
  constructor
  · intro hall I hI v
    exact (legalGroup_iff _).mp (hall _ (List.mem_map_of_mem _ hI)) v
  · intro hall G hG
    obtain ⟨I, hI, rfl⟩ := List.mem_map.mp hG
    exact (legalGroup_iff _).mpr (hall I hI)

/-- `solved` through the index sets: every group is completely set and no
value occurs twice in it. -/
theorem solved_iff (S : OpsSpec ops) (cells : List Cell) (h : cells.length = ops.n) :
    ops.solved cells = true ↔
      ∀ I ∈ S.allI, (∀ j ∈ I, (cells.getD j none).isSome = true) ∧
        ∀ v : Nat, (mapIdx cells I).count (some v) ≤ 1 := by
  unfold SudokuOps.solved
  rw [S.groups_eq cells h, List.all_eq_true]
  constructor
  · intro hall I hI
    have hne : mapIdx cells I ≠ [] := by
      unfold mapIdx
      simpa using S.allI_ne I hI
    have := (solvedGroup_iff _ hne).mp (hall _ (List.mem_map_of_mem _ hI))
    refine ⟨fun j hj => this.1 _ ?_, this.2⟩
    exact List.mem_map_of_mem _ hj
  · intro hall G hG
    obtain ⟨I, hI, rfl⟩ := List.mem_map.mp hG
    have hne : mapIdx cells I ≠ [] := by
      unfold mapIdx
      simpa using S.allI_ne I hI
    refine (solvedGroup_iff _ hne).mpr ⟨?_, (hall I hI).2⟩
    intro c hc
    obtain ⟨j, hj, rfl⟩ := List.mem_map.mp hc
    exact (hall I hI).1 j hj

/-- A valid completion of a grid, as the spec words it: an assignment of
in-range values to exactly the empty cells, agreeing with the given cells,
under which the grid is `solved` (every group completely filled with no
duplicate value). -/
def validCompletion (ops : SudokuOps) (g h : List Cell) : Prop :=
  h.length = ops.n ∧
  (∀ i, i < ops.n → (g.getD i none).isSome = true → h.getD i none = g.getD i none) ∧
  (∀ i, i < ops.n → g.getD i none = none →
    ∃ v ∈ ops.values, h.getD i none = some v) ∧
  ops.solved h = true

/-- Lexicographic comparison of the value sequences of two grids at
increasing cell positions (`cellKey` realises `None < Some v < Some w` for
`v < w`, the derived order on `Option<u8>`). -/
def lexLE (ops : SudokuOps) (c h : List Cell) : Prop :=
  c = h ∨ ∃ k, k < ops.n ∧ (∀ j, j < k → c.getD j none = h.getD j none) ∧
    cellKey (c.getD k none) < cellKey (h.getD k none)

end GenericSolver

/-! ## Shared 9×9 index sets (rows and columns of the two 9×9 variants) -/

/-- Index set of row `r` of a 9×9 grid. -/
def rowI9 (r : Nat) : List Nat := (List.range 9).map (fun j => r * 9 + j)

/-- Index set of column `c` of a 9×9 grid. -/
def colI9 (c : Nat) : List Nat := (List.range 9).map (fun m => c + m * 9)

/-! ## StandardSudoku (src/variants/standard.rs) -/

namespace StandardSudoku

/-- `StandardSudoku::grid(i)`: the `i`-th 3×3 box, via
`chunks_exact(3).skip(row * 9 + col).step_by(3).take(3).flatten()`. -/
def grid (cells : List Cell) (i : Nat) : List Cell :=
  let row := i / 3
  let col := i % 3
  ((stepBy 3 ((chunksExact 3 cells).drop (row * 9 + col))).take 3).flatten

/-- `StandardSudoku::rows`: `chunks_exact(9)`. -/
def rows (cells : List Cell) : List (List Cell) := chunksExact 9 cells

/-- `StandardSudoku::columns`: nine explicit `skip(c).step_by(9)` views. -/
def columns (cells : List Cell) : List (List Cell) :=
  [stepBy 9 (cells.drop 0), stepBy 9 (cells.drop 1), stepBy 9 (cells.drop 2),
   stepBy 9 (cells.drop 3), stepBy 9 (cells.drop 4), stepBy 9 (cells.drop 5),
   stepBy 9 (cells.drop 6), stepBy 9 (cells.drop 7), stepBy 9 (cells.drop 8)]

/-- `StandardSudoku::grids`: `(0..9).map(|i| self.grid(i))`. -/
def grids (cells : List Cell) : List (List Cell) :=
  (List.range 9).map (grid cells)

/-- `StandardSudoku::groups_of(i)`: the row, column and box through cell `i`. -/
def groupsOf (cells : List Cell) (i : Nat) : List (List Cell) :=
  let row := i / 9
  let col := i % 9
  let group := (row / 3) * 3 + col / 3
  [(cells.drop (row * 9)).take 9, stepBy 9 (cells.drop col), grid cells group]

/-- `StandardSudoku::set`: panics (modelled `none`) when the value is set and
outside `cell_values()` = 1..=9 — the check precedes the write — or when the
index is out of bounds (`self.cells[i] = num`). -/
def set (cells : List Cell) (i : Nat) (num : Cell) : Option (List Cell) :=
  match num with
  | some v =>
    if 1 ≤ v ∧ v ≤ 9 then
      if i < cells.length then some (cells.set i (some v)) else none
    else none
  | none => if i < cells.length then some (cells.set i none) else none

/-- `StandardSudoku::get`: `self.cells[i]`; `none` models the index panic. -/
def get (cells : List Cell) (i : Nat) : Option Cell := cells[i]?

/-- The `Sudoku` capability record of `StandardSudoku` (cell count 81,
`cell_values()` = 1..=9). -/
def ops : SudokuOps where
  n := 9 * 9
  values := (List.range 9).map (fun k => k + 1)
  rows := rows
  columns := columns
  grids := grids
  groupsOf := groupsOf

/-- Index set of box `g` (box-row `g / 3`, box-col `g % 3`, covering cell
rows `3*(g/3)…` and cell columns `3*(g%3)…`). -/
def boxI (g : Nat) : List Nat :=
  (List.range 3).map (fun j => (g / 3 * 9 + g % 3) * 3 + j) ++
  (List.range 3).map (fun j => (g / 3 * 9 + g % 3 + 3) * 3 + j) ++
  (List.range 3).map (fun j => (g / 3 * 9 + g % 3 + 6) * 3 + j)

/-- Index sets of `groups()`: rows, then columns, then boxes. -/
def allI : List (List Nat) :=
  (List.range 9).map rowI9 ++ (List.range 9).map colI9 ++ (List.range 9).map boxI

/-- Index sets of `groups_of(i)`. -/
def gOfI (i : Nat) : List (List Nat) :=
  [rowI9 (i / 9), colI9 (i % 9), boxI ((i / 9 / 3) * 3 + i % 9 / 3)]

end StandardSudoku

theorem mapIdx_append (cells : List Cell) (I J : List Nat) :
    mapIdx cells (I ++ J) = mapIdx cells I ++ mapIdx cells J :=
  List.map_append _ _ _

namespace StandardSudoku

theorem std_grid_eq (cells : List Cell) (h : cells.length = 81) (g : Nat)
    (hg : g < 9) : grid cells g = mapIdx cells (boxI g) := by
  have hs : g / 3 * 9 + g % 3 ≤ 20 := by omega
  unfold grid boxI
  dsimp only
  generalize g / 3 * 9 + g % 3 = s at hs ⊢
  have hchunks : chunksExact 3 cells =
      (List.range 27).map (fun m => (cells.drop (m * 3)).take 3) := by
    unfold chunksExact
    rw [h]
  have hstep : (stepBy 3 ((chunksExact 3 cells).drop s)).take 3 =
      [(cells.drop (s * 3)).take 3, (cells.drop ((s + 3) * 3)).take 3,
       (cells.drop ((s + 6) * 3)).take 3] := by
    have hlend : ((chunksExact 3 cells).drop s).length = 27 - s := by
      simp [length_chunksExact, h]
    apply List.ext_getElem?
    intro m
    rw [List.getElem?_take, getElem?_stepBy, hlend]
    have hcnt3 : 3 ≤ (27 - s + (3 - 1)) / 3 := by omega
    match m with
    | 0 =>
      rw [if_pos (by omega), if_pos (by omega), List.getElem?_drop, hchunks,
        List.getElem?_map, List.getElem?_range (by omega : s + 0 * 3 < 27)]
      simp
    | 1 =>
      rw [if_pos (by omega), if_pos (by omega), List.getElem?_drop, hchunks,
        List.getElem?_map, List.getElem?_range (by omega : s + 1 * 3 < 27)]
      simp [Nat.add_comm s 3]
    | 2 =>
      rw [if_pos (by omega), if_pos (by omega), List.getElem?_drop, hchunks,
        List.getElem?_map, List.getElem?_range (by omega : s + 2 * 3 < 27)]
      simp [Nat.add_comm s 6]
    | (m + 3) =>
      rw [if_neg (by omega)]
      simp
  rw [hstep]
  simp only [List.flatten_cons, List.flatten_nil, List.append_nil]
  rw [dropTake_eq_mapIdx cells (s * 3) 3 (by omega),
    dropTake_eq_mapIdx cells ((s + 3) * 3) 3 (by omega),
    dropTake_eq_mapIdx cells ((s + 6) * 3) 3 (by omega),
    mapIdx_append, mapIdx_append]
  simp [mapIdx, List.map_map, Function.comp]

theorem std_rows_eq (cells : List Cell) (h : cells.length = 81) :
    rows cells = (List.range 9).map (fun r => mapIdx cells (rowI9 r)) := by
  unfold rows chunksExact
  rw [h]
  norm_num
  intro m hm
  rw [dropTake_eq_mapIdx cells (m * 9) 9 (by omega)]
  rfl

theorem std_column_eq (cells : List Cell) (h : cells.length = 81) (c : Nat)
    (hc : c ≤ 8) : stepBy 9 (cells.drop c) = mapIdx cells (colI9 c) := by
  apply List.ext_getElem?
  intro m
  rw [getElem?_stepBy]
  have hlen : (cells.drop c).length = 81 - c := by simp [h]
  rw [hlen]
  have hcnt : (81 - c + (9 - 1)) / 9 = 9 := by omega
  rw [hcnt]
  unfold colI9 mapIdx
  rw [List.map_map, List.getElem?_map]
  by_cases hm : m < 9
  · rw [List.getElem?_range hm, List.getElem?_drop]
    have hb : c + m * 9 < cells.length := by omega
    simp [hm, List.getElem?_eq_getElem hb, List.getD_eq_getElem?_getD,
      Function.comp]
  · rw [List.getElem?_eq_none (l := List.range 9) (by simpa using Nat.le_of_not_lt hm)]
    simp [hm]

theorem std_columns_eq (cells : List Cell) (h : cells.length = 81) :
    columns cells = (List.range 9).map (fun c => mapIdx cells (colI9 c)) := by
  unfold columns
  rw [std_column_eq cells h 0 (by omega), std_column_eq cells h 1 (by omega),
    std_column_eq cells h 2 (by omega), std_column_eq cells h 3 (by omega),
    std_column_eq cells h 4 (by omega), std_column_eq cells h 5 (by omega),
    std_column_eq cells h 6 (by omega), std_column_eq cells h 7 (by omega),
    std_column_eq cells h 8 (by omega)]
  rfl

theorem std_grids_eq (cells : List Cell) (h : cells.length = 81) :
    grids cells = (List.range 9).map (fun g => mapIdx cells (boxI g)) := by
  unfold grids
  apply List.map_congr_left
  intro g hg
  exact std_grid_eq cells h g (List.mem_range.mp hg)

theorem std_groupsOf_eq (cells : List Cell) (h : cells.length = 81) (i : Nat)
    (hi : i < 81) : groupsOf cells i = (gOfI i).map (mapIdx cells) := by
  unfold groupsOf gOfI
  dsimp only
  have h1 : (cells.drop (i / 9 * 9)).take 9 = mapIdx cells (rowI9 (i / 9)) := by
    rw [dropTake_eq_mapIdx cells (i / 9 * 9) 9 (by omega)]
    rfl
  have h2 := std_column_eq cells h (i % 9) (by omega)
  have h3 := std_grid_eq cells h (i / 9 / 3 * 3 + i % 9 / 3) (by omega)
  simp only [List.map_cons, List.map_nil]
  rw [h1, h2, h3]

/-- The explicit-index view of `StandardSudoku`'s geometry, together with the
finite well-formedness facts about it. -/
def spec : OpsSpec ops where
  allI := allI
  gOfI := gOfI
  groups_eq := by
    intro cells h
    show rows cells ++ columns cells ++ grids cells = _
    rw [std_rows_eq cells h, std_columns_eq cells h, std_grids_eq cells h]
    unfold allI
    rw [List.map_append, List.map_append, List.map_map, List.map_map,
      List.map_map]
    rfl
  groupsOf_eq := fun cells h i hi => std_groupsOf_eq cells h i hi
  gOf_sub := by decide
  gOf_mem := by decide
  idx_lt := by decide
  allI_ne := by decide
  values_sorted := by decide

end StandardSudoku

/-! ## MiniSudoku (src/variants/mini.rs): 6×6 grid, values 1..=6 -/

namespace MiniSudoku

/-- `MiniSudoku::row(i)`: `skip(i * 6).take(6)`. -/
def row (cells : List Cell) (i : Nat) : List Cell := (cells.drop (i * 6)).take 6

/-- `MiniSudoku::column(i)`: `skip(i).step_by(6)`. -/
def column (cells : List Cell) (i : Nat) : List Cell := stepBy 6 (cells.drop i)

/-- `MiniSudoku::grid(i)`: the `i`-th box, via
`chunks_exact(3).skip(row * 4).skip(col).step_by(2).take(2).flatten()`
with `row = i / 2`, `col = i % 2`. -/
def grid (cells : List Cell) (i : Nat) : List Cell :=
  let row := i / 2
  let col := i % 2
  ((stepBy 2 (((chunksExact 3 cells).drop (row * 4)).drop col)).take 2).flatten

/-- `MiniSudoku::rows`: `(0..6).map(|i| self.row(i))`. -/
def rows (cells : List Cell) : List (List Cell) := (List.range 6).map (row cells)

/-- `MiniSudoku::columns`: `(0..6).map(|i| self.column(i))`. -/
def columns (cells : List Cell) : List (List Cell) :=
  (List.range 6).map (column cells)

/-- `MiniSudoku::grids`: `(0..6).map(|i| self.grid(i))`. -/
def grids (cells : List Cell) : List (List Cell) := (List.range 6).map (grid cells)

/-- `MiniSudoku::groups_of(i)` (`row = i / 6`, `col = i % 6`,
`group = (row / 2) * 2 + col / 3`). -/
def groupsOf (cells : List Cell) (i : Nat) : List (List Cell) :=
  let r := i / 6
  let c := i % 6
  let group := (r / 2) * 2 + c / 3
  [row cells r, column cells c, grid cells group]

/-- `MiniSudoku::set`: panics (modelled `none`) when the value is set and
outside `cell_values()` = 1..=6 — the check precedes the write — or when the
index is out of bounds (`self.cells[i] = num`). -/
def set (cells : List Cell) (i : Nat) (num : Cell) : Option (List Cell) :=
  match num with
  | some v =>
    if 1 ≤ v ∧ v ≤ 6 then
      if i < cells.length then some (cells.set i (some v)) else none
    else none
  | none => if i < cells.length then some (cells.set i none) else none

/-- `MiniSudoku::get`: `self.cells[i]`; `none` models the index panic. -/
def get (cells : List Cell) (i : Nat) : Option Cell := cells[i]?

/-- The `Sudoku` capability record of `MiniSudoku` (cell count 36,
`cell_values()` = 1..=6). -/
def ops : SudokuOps where
  n := 6 * 6
  values := (List.range 6).map (fun k => k + 1)
  rows := rows
  columns := columns
  grids := grids
  groupsOf := groupsOf

/-- Index set of row `r` of the 6×6 grid. -/
def rowI (r : Nat) : List Nat := (List.range 6).map (fun j => r * 6 + j)

/-- Index set of column `c` of the 6×6 grid. -/
def colI (c : Nat) : List Nat := (List.range 6).map (fun m => c + m * 6)

/-- Index set of box `g` (box-row `g / 2`, box-col `g % 2`: each box is
3 cells wide and 2 cells tall; the six boxes tile the grid in 3 box-rows of
2 box-columns). -/
def boxI (g : Nat) : List Nat :=
  (List.range 3).map (fun j => (g / 2 * 4 + g % 2) * 3 + j) ++
  (List.range 3).map (fun j => (g / 2 * 4 + g % 2 + 2) * 3 + j)

/-- Index sets of `groups()`: rows, then columns, then boxes. -/
def allI : List (List Nat) :=
  (List.range 6).map rowI ++ (List.range 6).map colI ++ (List.range 6).map boxI

/-- Index sets of `groups_of(i)`. -/
def gOfI (i : Nat) : List (List Nat) :=
  [rowI (i / 6), colI (i % 6), boxI (i / 6 / 2 * 2 + i % 6 / 3)]

theorem mini_row_eq (cells : List Cell) (h : cells.length = 36) (r : Nat)
    (hr : r ≤ 5) : row cells r = mapIdx cells (rowI r) := by
  unfold row
  rw [dropTake_eq_mapIdx cells (r * 6) 6 (by omega)]
  rfl

theorem mini_column_eq (cells : List Cell) (h : cells.length = 36) (c : Nat)
    (hc : c ≤ 5) : column cells c = mapIdx cells (colI c) := by
  unfold column
  apply List.ext_getElem?
  intro m
  rw [getElem?_stepBy]
  have hlen : (cells.drop c).length = 36 - c := by simp [h]
  rw [hlen]
  have hcnt : (36 - c + (6 - 1)) / 6 = 6 := by omega
  rw [hcnt]
  unfold colI mapIdx
  rw [List.map_map, List.getElem?_map]
  by_cases hm : m < 6
  · rw [List.getElem?_range hm, List.getElem?_drop]
    have hb : c + m * 6 < cells.length := by omega
    simp [hm, List.getElem?_eq_getElem hb, List.getD_eq_getElem?_getD,
      Function.comp]
  · rw [List.getElem?_eq_none (l := List.range 6) (by simpa using Nat.le_of_not_lt hm)]
    simp [hm]

theorem mini_grid_eq (cells : List Cell) (h : cells.length = 36) (g : Nat)
    (hg : g < 6) : grid cells g = mapIdx cells (boxI g) := by
  have hs : g / 2 * 4 + g % 2 ≤ 9 := by omega
  unfold grid boxI
  dsimp only
  rw [List.drop_drop]
  generalize g / 2 * 4 + g % 2 = s at hs ⊢
  have hchunks : chunksExact 3 cells =
      (List.range 12).map (fun m => (cells.drop (m * 3)).take 3) := by
    unfold chunksExact
    rw [h]
  have hstep : (stepBy 2 ((chunksExact 3 cells).drop s)).take 2 =
      [(cells.drop (s * 3)).take 3, (cells.drop ((s + 2) * 3)).take 3] := by
    have hlend : ((chunksExact 3 cells).drop s).length = 12 - s := by
      simp [length_chunksExact, h]
    apply List.ext_getElem?
    intro m
    rw [List.getElem?_take, getElem?_stepBy, hlend]
    have hcnt2 : 2 ≤ (12 - s + (2 - 1)) / 2 := by omega
    match m with
    | 0 =>
      rw [if_pos (by omega), if_pos (by omega), List.getElem?_drop, hchunks,
        List.getElem?_map, List.getElem?_range (by omega : s + 0 * 2 < 12)]
      simp
    | 1 =>
      rw [if_pos (by omega), if_pos (by omega), List.getElem?_drop, hchunks,
        List.getElem?_map, List.getElem?_range (by omega : s + 1 * 2 < 12)]
      simp [Nat.add_comm s 2]
    | (m + 2) =>
      rw [if_neg (by omega)]
      simp
  rw [hstep]
  simp only [List.flatten_cons, List.flatten_nil, List.append_nil]
  rw [dropTake_eq_mapIdx cells (s * 3) 3 (by omega),
    dropTake_eq_mapIdx cells ((s + 2) * 3) 3 (by omega),
    mapIdx_append]

theorem mini_rows_eq (cells : List Cell) (h : cells.length = 36) :
    rows cells = (List.range 6).map (fun r => mapIdx cells (rowI r)) := by
  unfold rows
  apply List.map_congr_left
  intro r hr
  exact mini_row_eq cells h r (by have := List.mem_range.mp hr; omega)

theorem mini_columns_eq (cells : List Cell) (h : cells.length = 36) :
    columns cells = (List.range 6).map (fun c => mapIdx cells (colI c)) := by
  unfold columns
  apply List.map_congr_left
  intro c hc
  exact mini_column_eq cells h c (by have := List.mem_range.mp hc; omega)

theorem mini_grids_eq (cells : List Cell) (h : cells.length = 36) :
    grids cells = (List.range 6).map (fun g => mapIdx cells (boxI g)) := by
  unfold grids
  apply List.map_congr_left
  intro g hg
  exact mini_grid_eq cells h g (List.mem_range.mp hg)

theorem mini_groupsOf_eq (cells : List Cell) (h : cells.length = 36) (i : Nat)
    (hi : i < 36) : groupsOf cells i = (gOfI i).map (mapIdx cells) := by
  unfold groupsOf gOfI
  dsimp only
  have h1 := mini_row_eq cells h (i / 6) (by omega)
  have h2 := mini_column_eq cells h (i % 6) (by omega)
  have h3 := mini_grid_eq cells h (i / 6 / 2 * 2 + i % 6 / 3) (by omega)
  simp only [List.map_cons, List.map_nil]
  rw [h1, h2, h3]

/-- The explicit-index view of `MiniSudoku`'s geometry, together with the
finite well-formedness facts about it. -/
def spec : OpsSpec ops where
  allI := allI
  gOfI := gOfI
  groups_eq := by
    intro cells h
    show rows cells ++ columns cells ++ grids cells = _
    rw [mini_rows_eq cells h, mini_columns_eq cells h, mini_grids_eq cells h]
    unfold allI
    rw [List.map_append, List.map_append, List.map_map, List.map_map,
      List.map_map]
    rfl
  groupsOf_eq := fun cells h i hi => mini_groupsOf_eq cells h i hi
  gOf_sub := by decide
  gOf_mem := by decide
  idx_lt := by decide
  allI_ne := by decide
  values_sorted := by decide

end MiniSudoku

/-! ## HyperSudoku (src/variants/hyper.rs): 9×9 grid with four extra regions -/

namespace HyperSudoku

/-- The start offset of `HyperSudoku::grid(i)`'s index window (`row = i / 3`,
`col = i % 3`): boxes `0..=8` start at `row * 9 * 3 + col * 3`; the four
extra regions `9..=12` start at `9 + 1`, `9 + 5`, `9 * 5 + 1`, `9 * 5 + 5`,
i.e. their top-left cells sit at (row, col) = (1,1), (1,5), (5,1), (5,5).
`i ≥ 13` is `unreachable!()` in the source (no caller produces it); the
model returns 0 there. -/
def gridOffset (i : Nat) : Nat :=
  if i ≤ 8 then i / 3 * 9 * 3 + i % 3 * 3
  else if i = 9 then 9 + 1
  else if i = 10 then 9 + 5
  else if i = 11 then 9 * 5 + 1
  else if i = 12 then 9 * 5 + 5
  else 0

/-- Index window of `HyperSudoku::grid(i)`:
`(offset..offset + 3).chain(offset + 9..offset + 12).chain(offset + 18..offset + 21)`. -/
def gridI (i : Nat) : List Nat :=
  List.range' (gridOffset i) 3 ++ List.range' (gridOffset i + 9) 3 ++
    List.range' (gridOffset i + 18) 3

/-- `HyperSudoku::grid(i)`: `indices.map(|i| self.cells[i])` (every index is
below 81, so `getD` models the array read exactly on 81-cell grids). -/
def grid (cells : List Cell) (i : Nat) : List Cell :=
  (gridI i).map (fun j => cells.getD j none)

/-- `HyperSudoku::rows`: `chunks_exact(9)`. -/
def rows (cells : List Cell) : List (List Cell) := chunksExact 9 cells

/-- `HyperSudoku::columns`: `(0..9).map(|i| skip(i).step_by(9))`. -/
def columns (cells : List Cell) : List (List Cell) :=
  (List.range 9).map (fun i => stepBy 9 (cells.drop i))

/-- `HyperSudoku::grids`: `(0..13).map(|i| self.grid(i))` — the nine boxes
and the four extra regions. -/
def grids (cells : List Cell) : List (List Cell) :=
  (List.range 13).map (grid cells)

/-- `HyperSudoku::groups_of(i)`: row, column, box, and — matching the Rust
`match (row, col)` with arms `(1..=3, 1..=3)`, `(1..=3, 5..=7)`,
`(5..=7, 1..=3)`, `(5..=7, 5..=7)` — the extra region containing the cell. -/
def groupsOf (cells : List Cell) (i : Nat) : List (List Cell) :=
  let row := i / 9
  let col := i % 9
  let group := (row / 3) * 3 + col / 3
  let v := [(cells.drop (row * 9)).take 9, stepBy 9 (cells.drop col),
    grid cells group]
  if 1 ≤ row ∧ row ≤ 3 then
    if 1 ≤ col ∧ col ≤ 3 then v ++ [grid cells 9]
    else if 5 ≤ col ∧ col ≤ 7 then v ++ [grid cells 10]
    else v
  else if 5 ≤ row ∧ row ≤ 7 then
    if 1 ≤ col ∧ col ≤ 3 then v ++ [grid cells 11]
    else if 5 ≤ col ∧ col ≤ 7 then v ++ [grid cells 12]
    else v
  else v

/-- `HyperSudoku::set`: panics (modelled `none`) when the value is set and
outside `cell_values()` = 1..=9, or when the index is out of bounds. -/
def set (cells : List Cell) (i : Nat) (num : Cell) : Option (List Cell) :=
  match num with
  | some v =>
    if 1 ≤ v ∧ v ≤ 9 then
      if i < cells.length then some (cells.set i (some v)) else none
    else none
  | none => if i < cells.length then some (cells.set i none) else none

/-- `HyperSudoku::get`: `self.cells[i]`; `none` models the index panic. -/
def get (cells : List Cell) (i : Nat) : Option Cell := cells[i]?

/-- The `Sudoku` capability record of `HyperSudoku` (cell count 81,
`cell_values()` = 1..=9). -/
def ops : SudokuOps where
  n := 9 * 9
  values := (List.range 9).map (fun k => k + 1)
  rows := rows
  columns := columns
  grids := grids
  groupsOf := groupsOf

/-- Index sets of `groups()`: rows, then columns, then the 13 grids. -/
def allI : List (List Nat) :=
  (List.range 9).map rowI9 ++ (List.range 9).map colI9 ++
    (List.range 13).map gridI

/-- Index sets of `groups_of(i)`, mirroring the `match (row, col)` arms. -/
def gOfI (i : Nat) : List (List Nat) :=
  let row := i / 9
  let col := i % 9
  let group := (row / 3) * 3 + col / 3
  let v := [rowI9 row, colI9 col, gridI group]
  if 1 ≤ row ∧ row ≤ 3 then
    if 1 ≤ col ∧ col ≤ 3 then v ++ [gridI 9]
    else if 5 ≤ col ∧ col ≤ 7 then v ++ [gridI 10]
    else v
  else if 5 ≤ row ∧ row ≤ 7 then
    if 1 ≤ col ∧ col ≤ 3 then v ++ [gridI 11]
    else if 5 ≤ col ∧ col ≤ 7 then v ++ [gridI 12]
    else v
  else v

theorem hyper_grid_eq (cells : List Cell) (g : Nat) :
    grid cells g = mapIdx cells (gridI g) := rfl

theorem hyper_rows_eq (cells : List Cell) (h : cells.length = 81) :
    rows cells = (List.range 9).map (fun r => mapIdx cells (rowI9 r)) := by
  unfold rows chunksExact
  rw [h]
  norm_num
  intro m hm
  rw [dropTake_eq_mapIdx cells (m * 9) 9 (by omega)]
  rfl

theorem hyper_columns_eq (cells : List Cell) (h : cells.length = 81) :
    columns cells = (List.range 9).map (fun c => mapIdx cells (colI9 c)) := by
  unfold columns
  apply List.map_congr_left
  intro c hc
  exact StandardSudoku.std_column_eq cells h c (by have := List.mem_range.mp hc; omega)

theorem hyper_grids_eq (cells : List Cell) :
    grids cells = (List.range 13).map (fun g => mapIdx cells (gridI g)) := rfl

theorem hyper_groupsOf_eq (cells : List Cell) (h : cells.length = 81) (i : Nat)
    (hi : i < 81) : groupsOf cells i = (gOfI i).map (mapIdx cells) := by
  unfold groupsOf gOfI
  dsimp only
  have h1 : (cells.drop (i / 9 * 9)).take 9 = mapIdx cells (rowI9 (i / 9)) := by
    rw [dropTake_eq_mapIdx cells (i / 9 * 9) 9 (by omega)]
    rfl
  have h2 := StandardSudoku.std_column_eq cells h (i % 9) (by omega)
  split_ifs <;>
    simp only [List.map_append, List.map_cons, List.map_nil] <;>
    rw [h1, h2] <;>
    rfl

/-- The explicit-index view of `HyperSudoku`'s geometry, together with the
finite well-formedness facts about it. -/
def spec : OpsSpec ops where
  allI := allI
  gOfI := gOfI
  groups_eq := by
    intro cells h
    show rows cells ++ columns cells ++ grids cells = _
    rw [hyper_rows_eq cells h, hyper_columns_eq cells h, hyper_grids_eq cells]
    unfold allI
    rw [List.map_append, List.map_append, List.map_map, List.map_map,
      List.map_map]
    rfl
  groupsOf_eq := fun cells h i hi => hyper_groupsOf_eq cells h i hi
  gOf_sub := by decide
  gOf_mem := by decide
  idx_lt := by decide
  allI_ne := by decide
  values_sorted := by decide

end HyperSudoku

/-! ## Text encoding (`Display` / `FromStr` of the variants) -/

/-- `char::to_digit(10)` on the chars this codebase feeds it (the `d as u8`
cast that follows it in the source is the identity here). -/
def toDigit10 (c : Char) : Option Nat :=
  if '0' ≤ c ∧ c ≤ '9' then some (c.toNat - '0'.toNat) else none

/-- One cell of `Display`: `('0' as u8 + digit) as char` for a set cell,
`' '` for an empty one. -/
def cellChar (c : Cell) : Char :=
  match c with
  | some digit => Char.ofNat ('0'.toNat + digit)
  | none => ' '

namespace StandardSudoku

/-- `Display for StandardSudoku`: one char per cell. -/
def format (cells : List Cell) : String := String.mk (cells.map cellChar)

/-- `FromStr for StandardSudoku`: keep `'1'..='9'` (set cell) and `' '`
(empty cell), drop every other char; fail with "invalid length" unless
exactly 81 cells remain. -/
def parse (s : String) : Except String (List Cell) :=
  let v := s.toList.filterMap (fun c =>
    if ('1' ≤ c ∧ c ≤ '9') ∨ c = ' ' then some (toDigit10 c) else none)
  if v.length ≠ 81 then Except.error "invalid length" else Except.ok v

end StandardSudoku

namespace MiniSudoku

/-- `Display for MiniSudoku`: one char per cell. -/
def format (cells : List Cell) : String := String.mk (cells.map cellChar)

/-- `FromStr for MiniSudoku`: keep `'1'..='6'` and `' '`, drop every other
char; fail with "invalid length" unless exactly 36 cells remain. -/
def parse (s : String) : Except String (List Cell) :=
  let v := s.toList.filterMap (fun c =>
    if ('1' ≤ c ∧ c ≤ '6') ∨ c = ' ' then some (toDigit10 c) else none)
  if v.length ≠ 36 then Except.error "invalid length" else Except.ok v

end MiniSudoku

namespace HyperSudoku

/-- `Display for HyperSudoku`: one char per cell. -/
def format (cells : List Cell) : String := String.mk (cells.map cellChar)

/-- `FromStr for HyperSudoku`: keep `'1'..='9'` and `' '`, drop every other
char; fail with "invalid length" unless exactly 81 cells remain. -/
def parse (s : String) : Except String (List Cell) :=
  let v := s.toList.filterMap (fun c =>
    if ('1' ≤ c ∧ c ≤ '9') ∨ c = ' ' then some (toDigit10 c) else none)
  if v.length ≠ 81 then Except.error "invalid length" else Except.ok v

end HyperSudoku

/-! ## Correctness of `backtrack` -/

section SolverProofs

theorem getD_set_self (cells : List Cell) (pos : Nat) (x : Cell)
    (h : pos < cells.length) : (cells.set pos x).getD pos none = x := by
  rw [List.getD_eq_getElem?_getD, List.getElem?_set]
  simp [h]

theorem getD_set_other (cells : List Cell) {pos j : Nat} (x : Cell)
    (h : pos ≠ j) : (cells.set pos x).getD j none = cells.getD j none := by
  rw [List.getD_eq_getElem?_getD, List.getD_eq_getElem?_getD, List.getElem?_set]
  simp [h]

theorem set_none_of_none (cells : List Cell) (pos : Nat)
    (h : cells.getD pos none = none) : cells.set pos none = cells := by
  apply List.ext_getElem?
  intro j
  rw [List.getElem?_set]
  by_cases hj : pos = j
  · subst hj
    simp only [if_pos rfl]
    by_cases hlt : pos < cells.length
    · rw [if_pos hlt]
      rw [List.getD_eq_getElem?_getD, List.getElem?_eq_getElem hlt] at h
      rw [List.getElem?_eq_getElem hlt]
      simp at h
      rw [h]
      simp
    · rw [if_neg hlt, List.getElem?_eq_none (Nat.le_of_not_lt hlt)]
      simp
  · simp [hj]

theorem two_mem_count_ge {I : List Nat} {j p : Nat} (f : Nat → Cell) (a : Cell)
    (hj : j ∈ I) (hp : p ∈ I) (hne : j ≠ p) (hfj : f j = a) (hfp : f p = a) :
    2 ≤ (I.map f).count a := by
  have h1 : I.Perm (j :: I.erase j) := List.perm_cons_erase hj
  have hp' : p ∈ I.erase j := (List.mem_erase_of_ne (Ne.symm hne)).mpr hp
  have h2 : (I.erase j).Perm (p :: (I.erase j).erase p) := List.perm_cons_erase hp'
  have hI : I.Perm (j :: p :: ((I.erase j).erase p)) := h1.trans (h2.cons j)
  rw [perm_count_cell (hI.map f) a]
  simp only [List.map_cons, List.count_cons, hfj, hfp]
  simp

theorem count_map_mono (f g : Nat → Cell) (a : Cell) :
    ∀ (I : List Nat), (∀ j ∈ I, f j = a → g j = a) →
      (I.map f).count a ≤ (I.map g).count a
  | [], _ => le_refl _
  | j :: I, h => by
    simp only [List.map_cons, List.count_cons]
    have hI := count_map_mono f g a I (fun x hx => h x (List.mem_cons_of_mem _ hx))
    by_cases hfj : f j = a
    · have hgj : g j = a := h j (List.mem_cons_self _ _) hfj
      simp only [hfj, hgj, beq_self_eq_true, if_pos]
      omega
    · have hf : (f j == a) = false := by simp [hfj]
      rw [hf]
      by_cases hgj : g j = a
      · have hg : (g j == a) = true := by simp [hgj]
        rw [hg]
        norm_num
        omega
      · have hg : (g j == a) = false := by simp [hgj]
        rw [hg]
        norm_num
        omega

/-- `mapIdx` and `count` under an update at an index with a given relation. -/
theorem count_mapIdx_mono {g h : List Cell} (a : Cell) (I : List Nat)
    (hagree : ∀ j ∈ I, g.getD j none = a → h.getD j none = a) :
    (mapIdx g I).count a ≤ (mapIdx h I).count a :=
  count_map_mono _ _ a I hagree

end SolverProofs

section SolverCore

variable {ops : SudokuOps}

/-- An illegal grid has no valid completion: the duplicated pair of set
values survives into any completion. -/
theorem illegal_no_completion (S : OpsSpec ops) (g : List Cell)
    (hlen : g.length = ops.n) (hil : ops.legal g = false) :
    ∀ h, ¬ validCompletion ops g h := by
  intro h hcomp
  obtain ⟨hhlen, hpres, _hemp, hsolved⟩ := hcomp
  have hP : ¬ (∀ I ∈ S.allI, ∀ v : Nat, (mapIdx g I).count (some v) ≤ 1) := by
    intro hc
    have := (legal_iff S g hlen).mpr hc
    rw [hil] at this
    exact Bool.false_ne_true this
  push_neg at hP
  obtain ⟨I, hI, v, hv⟩ := hP
  have hmono : (mapIdx g I).count (some v) ≤ (mapIdx h I).count (some v) := by
    apply count_mapIdx_mono
    intro j hj hgj
    have hjn : j < ops.n := S.idx_lt I hI j hj
    rw [hpres j hjn (by rw [hgj]; rfl), hgj]
  have hle := ((solved_iff S h hhlen).mp hsolved I hI).2 v
  omega

/-- Exclusion soundness: a value visible in some group of `groups_of(pos)`
cannot be the value of the (empty) cell `pos` in any valid completion. -/
theorem excluded_not_in_completion (S : OpsSpec ops) (g : List Cell)
    (hlen : g.length = ops.n) (pos : Nat) (hpos : pos < ops.n)
    (hnone : g.getD pos none = none) (w : Nat)
    (hmem : (some w : Cell) ∈ (ops.groupsOf g pos).flatten) :
    ∀ h, validCompletion ops g h → h.getD pos none ≠ some w := by
  intro h hcomp hw
  obtain ⟨hhlen, hpres, _hemp, hsolved⟩ := hcomp
  rw [S.groupsOf_eq g hlen pos hpos, List.mem_flatten] at hmem
  obtain ⟨G, hG, hwg⟩ := hmem
  obtain ⟨I, hI, rfl⟩ := List.mem_map.mp hG
  unfold mapIdx at hwg
  obtain ⟨j, hj, hgj⟩ := List.mem_map.mp hwg
  have hIall : I ∈ S.allI := S.gOf_sub pos hpos I hI
  have hposI : pos ∈ I := S.gOf_mem pos hpos I hI
  have hjn : j < ops.n := S.idx_lt I hIall j hj
  have hjne : j ≠ pos := by
    intro hEq
    rw [hEq, hnone] at hgj
    exact Option.noConfusion hgj
  have hhj : h.getD j none = some w := by
    rw [hpres j hjn (by rw [hgj]; rfl), hgj]
  have h2 : 2 ≤ (mapIdx h I).count (some w) :=
    two_mem_count_ge (fun j => h.getD j none) (some w) hj hposI hjne hhj hw
  have hle := ((solved_iff S h hhlen).mp hsolved I hIall).2 w
  omega

/-- Completions of `g.set pos (Some v)` are exactly the completions of `g`
that put `v` at the empty cell `pos`. -/
theorem completion_set_iff (g : List Cell)
    (hlen : g.length = ops.n) (pos : Nat) (hpos : pos < ops.n)
    (hnone : g.getD pos none = none) (v : Nat) (hv : v ∈ ops.values)
    (h : List Cell) :
    validCompletion ops (g.set pos (some v)) h ↔
      validCompletion ops g h ∧ h.getD pos none = some v := by
  have hplen : pos < g.length := by omega
  have hsetpos : (g.set pos (some v)).getD pos none = some v :=
    getD_set_self g pos _ hplen
  constructor
  · rintro ⟨hhlen, hpres, hemp, hsolved⟩
    have hhp : h.getD pos none = some v := by
      have := hpres pos hpos (by rw [hsetpos]; rfl)
      rw [this, hsetpos]
    refine ⟨⟨hhlen, ?_, ?_, hsolved⟩, hhp⟩
    · intro i hi hsome
      have hne : pos ≠ i := fun hEq => by
        rw [← hEq, hnone] at hsome
        simp at hsome
      rw [← getD_set_other g (some v) hne] at hsome
      rw [hpres i hi hsome, getD_set_other g (some v) hne]
    · intro i hi hinone
      by_cases hne : pos = i
      · subst hne
        exact ⟨v, hv, hhp⟩
      · apply hemp i hi
        rw [getD_set_other g (some v) hne, hinone]
  · rintro ⟨⟨hhlen, hpres, hemp, hsolved⟩, hhp⟩
    refine ⟨hhlen, ?_, ?_, hsolved⟩
    · intro i hi hsome
      by_cases hne : pos = i
      · subst hne
        rw [hhp, hsetpos]
      · rw [getD_set_other g (some v) hne] at hsome ⊢
        exact hpres i hi hsome
    · intro i hi hinone
      by_cases hne : pos = i
      · subst hne
        rw [hsetpos] at hinone
        exact Option.noConfusion hinone
      · apply hemp i hi
        rw [getD_set_other g (some v) hne] at hinone
        exact hinone

end SolverCore

section SolverMaster

variable {ops : SudokuOps}

/-- What a successful `backtrack` call guarantees: the final grid is a valid
completion of the entry grid, and it is lexicographically least among all
valid completions. -/
def BtOk (ops : SudokuOps) (g c : List Cell) : Prop :=
  validCompletion ops g c ∧ ∀ h, validCompletion ops g h → lexLE ops c h

/-- What a failed `backtrack` call guarantees: the grid is restored exactly,
no valid completion exists, and the message identifies the cause. -/
def BtErr (ops : SudokuOps) (g : List Cell) (m : String) (c : List Cell) : Prop :=
  c = g ∧ (∀ h, ¬ validCompletion ops g h) ∧
  (ops.legal g = true → m = noSolutionMsg) ∧
  (ops.legal g = false → m = illegalMsg)

/-- The full contract of one `backtrack` call. -/
def BtSpec (ops : SudokuOps) (g : List Cell) : SolveResult → Prop
  | .ok c => BtOk ops g c
  | .err m c => BtErr ops g m c

theorem getElem?_eq_of_getD {l₁ l₂ : List Cell} {i : Nat} (h₁ : i < l₁.length)
    (h₂ : i < l₂.length) (h : l₁.getD i none = l₂.getD i none) :
    l₁[i]? = l₂[i]? := by
  rw [List.getD_eq_getElem?_getD, List.getD_eq_getElem?_getD,
    List.getElem?_eq_getElem h₁, List.getElem?_eq_getElem h₂] at h
  rw [List.getElem?_eq_getElem h₁, List.getElem?_eq_getElem h₂]
  simpa using h

theorem eq_of_getD_eq {l₁ l₂ : List Cell} (hl : l₁.length = l₂.length)
    (h : ∀ i, i < l₁.length → l₁.getD i none = l₂.getD i none) : l₁ = l₂ := by
  apply List.ext_getElem?
  intro i
  by_cases hi : i < l₁.length
  · exact getElem?_eq_of_getD hi (hl ▸ hi) (h i hi)
  · rw [List.getElem?_eq_none (by omega), List.getElem?_eq_none (by omega)]

/-- The immediate-failure leaf: entry grid illegal. -/
theorem btErr_illegal (S : OpsSpec ops) (cells : List Cell)
    (hlen : cells.length = ops.n) (hleg : ops.legal cells = false) :
    BtErr ops cells illegalMsg cells :=
  ⟨rfl, illegal_no_completion S cells hlen hleg,
    fun ht => absurd ht (by rw [hleg]; simp), fun _ => rfl⟩

/-- The success leaf: position past the end of a legal, everywhere-set grid. -/
theorem btOk_leaf (S : OpsSpec ops) (cells : List Cell)
    (hlen : cells.length = ops.n) (hlegal : ops.legal cells = true)
    (hall : ∀ i, i < ops.n → (cells.getD i none).isSome = true) :
    BtOk ops cells cells := by
  have hvc : validCompletion ops cells cells := by
    refine ⟨hlen, fun i _ _ => rfl, ?_, ?_⟩
    · intro i hi hinone
      have := hall i hi
      rw [hinone] at this
      exact absurd this (by simp)
    · rw [solved_iff S cells hlen]
      intro I hI
      refine ⟨fun j hj => hall j (S.idx_lt I hI j hj), ?_⟩
      exact (legal_iff S cells hlen).mp hlegal I hI
  refine ⟨hvc, ?_⟩
  intro h hcomp
  left
  apply eq_of_getD_eq (by rw [hlen, hcomp.1])
  intro i hi
  have hin : i < ops.n := by omega
  exact (hcomp.2.1 i hin (hall i hin)).symm

end SolverMaster

section SolverMaster2

variable {ops : SudokuOps}

/-- Contract of the candidate loop `tryValues` at the empty cell `pos` of
grid `g`: `cur` is the grid the loop currently holds (equal to `g` except
possibly at `pos`), `pre` are the already-tried candidates (each refuted),
and `vs` the remaining ones. -/
theorem tryValues_spec (S : OpsSpec ops) (pos : Nat) (g : List Cell)
    (hlen : g.length = ops.n) (hpos : pos < ops.n)
    (hnone : g.getD pos none = none)
    (hInv : ∀ i, i < pos → (g.getD i none).isSome = true)
    (IH : ∀ cells' : List Cell, cells'.length = ops.n →
      (∀ i, i < pos + 1 → (cells'.getD i none).isSome = true) →
      BtSpec ops cells' (backtrack ops cells' (pos + 1))) :
    ∀ (vs pre : List Nat) (cur : List Cell),
      (∀ x : Cell, cur.set pos x = g.set pos x) →
      ops.values.filter
        (fun value => !(((ops.groupsOf g pos).flatten).contains (some value)))
        = pre ++ vs →
      (∀ w ∈ pre, ∀ h, validCompletion ops g h → h.getD pos none ≠ some w) →
      (match tryValues ops cur pos vs with
        | .ok c => BtOk ops g c
        | .err _m c => c = g ∧ (∀ h, ¬ validCompletion ops g h) ∧
            _m = noSolutionMsg) := by
  have hplen : pos < g.length := by omega
  intro vs
  induction vs with
  | nil =>
    intro pre cur hcur hsplit hpre
    rw [tryValues]
    refine ⟨?_, ?_, rfl⟩
    · rw [hcur, set_none_of_none g pos hnone]
    · intro h hcomp
      obtain ⟨w, hwvals, hwpos⟩ := hcomp.2.2.1 pos hpos hnone
      by_cases hmem : ((ops.groupsOf g pos).flatten).contains (some w)
      · refine excluded_not_in_completion S g hlen pos hpos hnone w ?_ h hcomp hwpos
        simpa using hmem
      · have hmem' : ((ops.groupsOf g pos).flatten).contains (some w) = false := by
          revert hmem
          cases ((ops.groupsOf g pos).flatten).contains (some w) <;> simp
        have hwpossible : w ∈ ops.values.filter
            (fun value => !(((ops.groupsOf g pos).flatten).contains (some value))) :=
          List.mem_filter.mpr ⟨hwvals, by rw [hmem']; rfl⟩
        rw [hsplit, List.append_nil] at hwpossible
        exact hpre w hwpossible h hcomp hwpos
  | cons v rest ihvs =>
    intro pre cur hcur hsplit hpre
    rw [tryValues, hcur (some v)]
    have hvpossible : v ∈ ops.values.filter
        (fun value => !(((ops.groupsOf g pos).flatten).contains (some value))) := by
      rw [hsplit]
      exact List.mem_append.mpr (Or.inr (List.mem_cons_self v rest))
    have hvvals : v ∈ ops.values := (List.mem_filter.mp hvpossible).1
    have hglen : (g.set pos (some v)).length = ops.n := by
      rw [List.length_set]; exact hlen
    have hsetpos : (g.set pos (some v)).getD pos none = some v :=
      getD_set_self g pos _ hplen
    have hInv' : ∀ i, i < pos + 1 →
        ((g.set pos (some v)).getD i none).isSome = true := by
      intro i hi
      rcases Nat.lt_or_ge i pos with h' | h'
      · rw [getD_set_other g _ (by omega)]
        exact hInv i h'
      · have hieq : i = pos := by omega
        subst hieq
        rw [hsetpos]
        rfl
    have hbt := IH (g.set pos (some v)) hglen hInv'
    cases hres : backtrack ops (g.set pos (some v)) (pos + 1) with
    | ok c =>
      rw [hres] at hbt
      simp only [BtSpec] at hbt
      obtain ⟨⟨hclen, hcpres, hcemp, hcsolved⟩, hclex⟩ := hbt
      have hcpos : c.getD pos none = some v := by
        have := hcpres pos hpos (by rw [hsetpos]; rfl)
        rw [this, hsetpos]
      have hcpresg : ∀ i, i < ops.n → (g.getD i none).isSome = true →
          c.getD i none = g.getD i none := by
        intro i hi hsome
        have hne : pos ≠ i := fun hEq => by
          rw [← hEq, hnone] at hsome
          simp at hsome
        rw [← getD_set_other g (some v) hne] at hsome
        rw [hcpres i hi hsome, getD_set_other g (some v) hne]
      refine ⟨⟨hclen, hcpresg, ?_, hcsolved⟩, ?_⟩
      · intro i hi hinone
        by_cases hne : pos = i
        · subst hne
          exact ⟨v, hvvals, hcpos⟩
        · apply hcemp i hi
          rw [getD_set_other g (some v) hne, hinone]
      · intro h hcomp
        obtain ⟨w, hwvals, hwpos⟩ := hcomp.2.2.1 pos hpos hnone
        by_cases hmemw : ((ops.groupsOf g pos).flatten).contains (some w)
        · exact absurd hwpos (excluded_not_in_completion S g hlen pos hpos hnone w
            (by simpa using hmemw) h hcomp)
        · have hmemw' : ((ops.groupsOf g pos).flatten).contains (some w) = false := by
            revert hmemw
            cases ((ops.groupsOf g pos).flatten).contains (some w) <;> simp
          have hwpossible : w ∈ ops.values.filter
              (fun value => !(((ops.groupsOf g pos).flatten).contains (some value))) :=
            List.mem_filter.mpr ⟨hwvals, by rw [hmemw']; rfl⟩
          rw [hsplit] at hwpossible
          rcases List.mem_append.mp hwpossible with hwpre | hwcur
          · exact absurd hwpos (hpre w hwpre h hcomp)
          · rcases List.mem_cons.mp hwcur with rfl | hwrest
            · have hcomp' : validCompletion ops (g.set pos (some w)) h :=
                (completion_set_iff g hlen pos hpos hnone w hvvals h).mpr ⟨hcomp, hwpos⟩
              exact hclex h hcomp'
            · have hsorted : List.Pairwise (· < ·) (pre ++ v :: rest) := by
                rw [← hsplit]
                exact S.values_sorted.filter _
              have hvw : v < w :=
                (List.pairwise_cons.mp (List.pairwise_append.mp hsorted).2.1).1 w hwrest
              right
              refine ⟨pos, hpos, ?_, ?_⟩
              · intro j hj
                have hjn : j < ops.n := by omega
                have hjsome := hInv j hj
                have hcj : c.getD j none = g.getD j none := hcpresg j hjn hjsome
                have hhj : h.getD j none = g.getD j none := hcomp.2.1 j hjn hjsome
                rw [hcj, hhj]
              · rw [hcpos, hwpos]
                simp only [cellKey]
                omega
    | err m c =>
      rw [hres] at hbt
      simp only [BtSpec] at hbt
      obtain ⟨hceq, hnocomp', _hmsg1, _hmsg2⟩ := hbt
      have hcur' : ∀ x : Cell, c.set pos x = g.set pos x := by
        intro x
        rw [hceq, List.set_set]
      have hsplit' : ops.values.filter
          (fun value => !(((ops.groupsOf g pos).flatten).contains (some value)))
          = (pre ++ [v]) ++ rest := by
        rw [hsplit, List.append_assoc]
        rfl
      have hpre' : ∀ w ∈ pre ++ [v], ∀ h, validCompletion ops g h →
          h.getD pos none ≠ some w := by
        intro w hw h hcomp hwpos
        rcases List.mem_append.mp hw with hwpre | hwv
        · exact hpre w hwpre h hcomp hwpos
        · have hweq : w = v := by simpa using hwv
          apply hnocomp' h
          rw [hweq] at hwpos
          exact (completion_set_iff g hlen pos hpos hnone v hvvals h).mpr ⟨hcomp, hwpos⟩
      exact ihvs (pre ++ [v]) c hcur' hsplit' hpre'

end SolverMaster2

section SolverMaster3

variable {ops : SudokuOps}

/-- Master contract of `backtrack`: on a grid of the variant's length whose
cells before `pos` are all set, a successful call returns the
lexicographically least valid completion and a failed call restores the grid
and certifies that no valid completion exists. -/
theorem backtrack_spec (S : OpsSpec ops) :
    ∀ (fuel pos : Nat) (cells : List Cell), ops.n - pos ≤ fuel →
      cells.length = ops.n → pos ≤ ops.n →
      (∀ i, i < pos → (cells.getD i none).isSome = true) →
      BtSpec ops cells (backtrack ops cells pos) := by
  intro fuel
  induction fuel with
  | zero =>
    intro pos cells hfuel hlen hle hInv
    have hpos : pos = ops.n := by omega
    rw [backtrack]
    by_cases hleg : ops.legal cells = false
    · rw [if_pos hleg]
      exact btErr_illegal S cells hlen hleg
    · have hlegal : ops.legal cells = true := by
        revert hleg
        cases ops.legal cells <;> simp
      rw [if_neg hleg, dif_pos (by omega : pos ≥ ops.n)]
      exact btOk_leaf S cells hlen hlegal (fun i hi => hInv i (by omega))
  | succ fuel ih =>
    intro pos cells hfuel hlen hle hInv
    rw [backtrack]
    by_cases hleg : ops.legal cells = false
    · rw [if_pos hleg]
      exact btErr_illegal S cells hlen hleg
    · have hlegal : ops.legal cells = true := by
        revert hleg
        cases ops.legal cells <;> simp
      rw [if_neg hleg]
      by_cases hge : pos ≥ ops.n
      · rw [dif_pos hge]
        exact btOk_leaf S cells hlen hlegal (fun i hi => hInv i (by omega))
      · rw [dif_neg hge]
        have hpos : pos < ops.n := by omega
        by_cases hsome : (cells.getD pos none).isSome = true
        · rw [if_pos hsome]
          refine ih (pos + 1) cells (by omega) hlen (by omega) ?_
          intro i hi
          rcases Nat.lt_or_ge i pos with h' | h'
          · exact hInv i h'
          · have : i = pos := by omega
            subst this
            exact hsome
        · rw [if_neg hsome]
          have hnone : cells.getD pos none = none := by
            revert hsome
            cases cells.getD pos none <;> simp
          have IH' : ∀ cells' : List Cell, cells'.length = ops.n →
              (∀ i, i < pos + 1 → (cells'.getD i none).isSome = true) →
              BtSpec ops cells' (backtrack ops cells' (pos + 1)) :=
            fun cells' h1 h2 => ih (pos + 1) cells' (by omega) h1 (by omega) h2
          have hspec := tryValues_spec S pos cells hlen hpos hnone hInv IH'
            (ops.values.filter
              (fun value => !(((ops.groupsOf cells pos).flatten).contains (some value))))
            [] cells (fun _ => rfl) rfl (by intro w hw; simp at hw)
          cases htv : tryValues ops cells pos
              (ops.values.filter
                (fun value => !(((ops.groupsOf cells pos).flatten).contains (some value)))) with
          | ok c =>
            rw [htv] at hspec
            exact hspec
          | err m c =>
            rw [htv] at hspec
            obtain ⟨h1, h2, h3⟩ := hspec
            exact ⟨h1, h2, fun _ => h3, fun hf => absurd hf (by rw [hlegal]; simp)⟩

/-- Top-level contract of `Sudoku::solve`. -/
theorem solve_spec (S : OpsSpec ops) (cells : List Cell)
    (hlen : cells.length = ops.n) :
    BtSpec ops cells (ops.solve cells) :=
  backtrack_spec S ops.n 0 cells (by omega) hlen (by omega)
    (fun i hi => absurd hi (by omega))

end SolverMaster3

section SolveCorollaries

variable {ops : SudokuOps}

/-- The grid a `solve`/`backtrack` call leaves behind (the Rust functions
mutate in place; this projects the final grid out of the result). -/
def finalCells : SolveResult → List Cell
  | .ok c => c
  | .err _ c => c

/-- `solve` succeeds iff a valid completion exists. -/
theorem solve_ok_iff (S : OpsSpec ops) (cells : List Cell)
    (hlen : cells.length = ops.n) :
    (∃ c, ops.solve cells = .ok c) ↔ ∃ h, validCompletion ops cells h := by
  have hs := solve_spec S cells hlen
  constructor
  · rintro ⟨c, hc⟩
    rw [hc] at hs
    exact ⟨c, hs.1⟩
  · rintro ⟨h, hh⟩
    cases hres : ops.solve cells with
    | ok c => exact ⟨c, rfl⟩
    | err m c =>
      rw [hres] at hs
      exact absurd hh (hs.2.1 h)

/-- A successful `solve` leaves a solved grid that is the lexicographically
least valid completion of the input. -/
theorem solve_ok_min (S : OpsSpec ops) (cells : List Cell)
    (hlen : cells.length = ops.n) (c : List Cell)
    (hc : ops.solve cells = .ok c) :
    validCompletion ops cells c ∧ ops.solved c = true ∧
      ∀ h, validCompletion ops cells h → lexLE ops c h := by
  have hs := solve_spec S cells hlen
  rw [hc] at hs
  exact ⟨hs.1, hs.1.2.2.2, hs.2⟩

/-- A failed `solve` restores the grid exactly. -/
theorem solve_err_restores (S : OpsSpec ops) (cells : List Cell)
    (hlen : cells.length = ops.n) (m : String) (c : List Cell)
    (hc : ops.solve cells = .err m c) : c = cells := by
  have hs := solve_spec S cells hlen
  rw [hc] at hs
  exact hs.1

/-- A failed `solve` certifies that no valid completion exists. -/
theorem solve_err_no_completion (S : OpsSpec ops) (cells : List Cell)
    (hlen : cells.length = ops.n) (m : String) (c : List Cell)
    (hc : ops.solve cells = .err m c) : ∀ h, ¬ validCompletion ops cells h := by
  have hs := solve_spec S cells hlen
  rw [hc] at hs
  exact hs.2.1

/-- On an illegal grid, `solve` fails immediately in its first `backtrack`
call, with the "cannot solve illegal position" message and the grid
untouched. -/
theorem solve_illegal_eq (ops : SudokuOps) (cells : List Cell)
    (hleg : ops.legal cells = false) :
    ops.solve cells = .err illegalMsg cells := by
  unfold SudokuOps.solve
  rw [backtrack, if_pos hleg]

/-- `solve` fails with the "illegal position" message iff the input grid is
illegal. -/
theorem solve_err_illegal_iff (S : OpsSpec ops) (cells : List Cell)
    (hlen : cells.length = ops.n) :
    ops.solve cells = .err illegalMsg cells ↔ ops.legal cells = false := by
  constructor
  · intro hc
    by_contra hleg
    have hlegal : ops.legal cells = true := by
      revert hleg
      cases ops.legal cells <;> simp
    have hs := solve_spec S cells hlen
    rw [hc] at hs
    have hmsg : illegalMsg = noSolutionMsg := hs.2.2.1 hlegal
    exact absurd hmsg (by unfold noSolutionMsg illegalMsg; decide)
  · exact solve_illegal_eq ops cells

/-- A group of `groups()` holding the same set value twice makes `legal`
false. -/
theorem legal_false_of_dup (ops : SudokuOps) (cells : List Cell)
    (G : List Cell) (hG : G ∈ ops.groups cells) (v : Nat)
    (hv : 2 ≤ G.count (some v)) : ops.legal cells = false := by
  unfold SudokuOps.legal
  rw [List.all_eq_false]
  refine ⟨G, hG, ?_⟩
  intro hleg
  have := (legalGroup_iff G).mp hleg v
  omega

/-- `solve` never alters a set cell, whether it succeeds or fails. -/
theorem solve_preserves_set_cells (S : OpsSpec ops) (cells : List Cell)
    (hlen : cells.length = ops.n) (p : Nat) (hp : p < ops.n)
    (hsome : (cells.getD p none).isSome = true) :
    (finalCells (ops.solve cells)).getD p none = cells.getD p none := by
  have hs := solve_spec S cells hlen
  cases hres : ops.solve cells with
  | ok c =>
    rw [hres] at hs
    exact hs.1.2.1 p hp hsome
  | err m c =>
    rw [hres] at hs
    rw [finalCells, hs.1]

end SolveCorollaries

/-! ## Round-trip of the text encoding -/

/-- The data-model invariant for one cell: empty, or a value in `1..=N`. -/
def cellInRange (N : Nat) (c : Cell) : Bool :=
  match c with
  | none => true
  | some v => decide (1 ≤ v) && decide (v ≤ N)

theorem parseChar9_cellChar (c : Cell) (hc : cellInRange 9 c = true) :
    (if ('1' ≤ cellChar c ∧ cellChar c ≤ '9') ∨ cellChar c = ' '
      then some (toDigit10 (cellChar c)) else none) = some c := by
  match c with
  | none => decide
  | some d =>
    have hd : 1 ≤ d ∧ d ≤ 9 := by
      unfold cellInRange at hc
      simp at hc
      omega
    obtain ⟨h1, h2⟩ := hd
    interval_cases d <;> decide

theorem parseChar6_cellChar (c : Cell) (hc : cellInRange 6 c = true) :
    (if ('1' ≤ cellChar c ∧ cellChar c ≤ '6') ∨ cellChar c = ' '
      then some (toDigit10 (cellChar c)) else none) = some c := by
  match c with
  | none => decide
  | some d =>
    have hd : 1 ≤ d ∧ d ≤ 6 := by
      unfold cellInRange at hc
      simp at hc
      omega
    obtain ⟨h1, h2⟩ := hd
    interval_cases d <;> decide

theorem mk_toList (l : List Char) : (String.mk l).toList = l := rfl

theorem filterMap_map_all {α β : Type _} (g : α → β) (f : β → Option α)
    (L : List α) (h : ∀ x ∈ L, f (g x) = some x) :
    (L.map g).filterMap f = L := by
  rw [List.filterMap_map,
    filterMap_eq_map_of_all_some (f ∘ g) id L (fun x hx => h x hx), List.map_id]

theorem mk_length (l : List Char) : (String.mk l).length = l.length := rfl

theorem StandardSudoku.std_parse_format (cells : List Cell)
    (hlen : cells.length = 81)
    (hrange : ∀ c ∈ cells, cellInRange 9 c = true) :
    StandardSudoku.parse (StandardSudoku.format cells) = .ok cells := by
  unfold StandardSudoku.parse StandardSudoku.format
  rw [mk_toList,
    filterMap_map_all cellChar _ cells
      (fun x hx => parseChar9_cellChar x (hrange x hx))]
  simp [hlen]

theorem MiniSudoku.mini_parse_format (cells : List Cell)
    (hlen : cells.length = 36)
    (hrange : ∀ c ∈ cells, cellInRange 6 c = true) :
    MiniSudoku.parse (MiniSudoku.format cells) = .ok cells := by
  unfold MiniSudoku.parse MiniSudoku.format
  rw [mk_toList,
    filterMap_map_all cellChar _ cells
      (fun x hx => parseChar6_cellChar x (hrange x hx))]
  simp [hlen]

theorem HyperSudoku.hyper_parse_format (cells : List Cell)
    (hlen : cells.length = 81)
    (hrange : ∀ c ∈ cells, cellInRange 9 c = true) :
    HyperSudoku.parse (HyperSudoku.format cells) = .ok cells := by
  unfold HyperSudoku.parse HyperSudoku.format
  rw [mk_toList,
    filterMap_map_all cellChar _ cells
      (fun x hx => parseChar9_cellChar x (hrange x hx))]
  simp [hlen]

theorem StandardSudoku.std_format_length (cells : List Cell) :
    (StandardSudoku.format cells).length = cells.length := by
  unfold StandardSudoku.format
  rw [mk_length, List.length_map]

theorem MiniSudoku.mini_format_length (cells : List Cell) :
    (MiniSudoku.format cells).length = cells.length := by
  unfold MiniSudoku.format
  rw [mk_length, List.length_map]

theorem HyperSudoku.hyper_format_length (cells : List Cell) :
    (HyperSudoku.format cells).length = cells.length := by
  unfold HyperSudoku.format
  rw [mk_length, List.length_map]

/-! ## The claims -/

/-- Claim C1: for every variant (Standard, Mini, Hyper), `solve` returns
success iff the grid's present cells have a valid completion (an assignment
of in-range values to exactly the empty cells under which every group is
filled with no duplicate value, i.e. `validCompletion`); and when `solve`
returns success, the grid afterwards satisfies `solved`. -/
theorem claim_C1 :
    (∀ cells : List Cell, cells.length = 81 →
      (((∃ c, StandardSudoku.ops.solve cells = .ok c) ↔
          ∃ h, validCompletion StandardSudoku.ops cells h) ∧
        ∀ c, StandardSudoku.ops.solve cells = .ok c →
          StandardSudoku.ops.solved c = true)) ∧
    (∀ cells : List Cell, cells.length = 36 →
      (((∃ c, MiniSudoku.ops.solve cells = .ok c) ↔
          ∃ h, validCompletion MiniSudoku.ops cells h) ∧
        ∀ c, MiniSudoku.ops.solve cells = .ok c →
          MiniSudoku.ops.solved c = true)) ∧
    (∀ cells : List Cell, cells.length = 81 →
      (((∃ c, HyperSudoku.ops.solve cells = .ok c) ↔
          ∃ h, validCompletion HyperSudoku.ops cells h) ∧
        ∀ c, HyperSudoku.ops.solve cells = .ok c →
          HyperSudoku.ops.solved c = true)) := by
  refine ⟨fun cells h => ⟨solve_ok_iff StandardSudoku.spec cells h, ?_⟩,
    fun cells h => ⟨solve_ok_iff MiniSudoku.spec cells h, ?_⟩,
    fun cells h => ⟨solve_ok_iff HyperSudoku.spec cells h, ?_⟩⟩
  · exact fun c hc => (solve_ok_min StandardSudoku.spec cells h c hc).2.1
  · exact fun c hc => (solve_ok_min MiniSudoku.spec cells h c hc).2.1
  · exact fun c hc => (solve_ok_min HyperSudoku.spec cells h c hc).2.1

/-- Witness for C1 at the empty Standard grid. -/
theorem claim_C1_witness :
    (List.replicate 81 (none : Cell)).length = 81 ∧
    (((∃ c, StandardSudoku.ops.solve (List.replicate 81 (none : Cell)) = .ok c) ↔
        ∃ h, validCompletion StandardSudoku.ops (List.replicate 81 (none : Cell)) h) ∧
      ∀ c, StandardSudoku.ops.solve (List.replicate 81 (none : Cell)) = .ok c →
        StandardSudoku.ops.solved c = true) :=
  ⟨by decide, claim_C1.1 (List.replicate 81 (none : Cell)) (by decide)⟩

/-- Claim C2: for every variant, a successful `solve` yields the
lexicographically least valid completion (candidates are tried in ascending
order and the first success wins), and — determinism — any two successful
results on the same input grid are identical. -/
theorem claim_C2 :
    (∀ cells : List Cell, cells.length = 81 →
      ∀ c, StandardSudoku.ops.solve cells = .ok c →
        (validCompletion StandardSudoku.ops cells c ∧
          ∀ h, validCompletion StandardSudoku.ops cells h →
            lexLE StandardSudoku.ops c h) ∧
        ∀ c', StandardSudoku.ops.solve cells = .ok c' → c' = c) ∧
    (∀ cells : List Cell, cells.length = 36 →
      ∀ c, MiniSudoku.ops.solve cells = .ok c →
        (validCompletion MiniSudoku.ops cells c ∧
          ∀ h, validCompletion MiniSudoku.ops cells h →
            lexLE MiniSudoku.ops c h) ∧
        ∀ c', MiniSudoku.ops.solve cells = .ok c' → c' = c) ∧
    (∀ cells : List Cell, cells.length = 81 →
      ∀ c, HyperSudoku.ops.solve cells = .ok c →
        (validCompletion HyperSudoku.ops cells c ∧
          ∀ h, validCompletion HyperSudoku.ops cells h →
            lexLE HyperSudoku.ops c h) ∧
        ∀ c', HyperSudoku.ops.solve cells = .ok c' → c' = c) := by
  refine ⟨fun cells h c hc => ⟨⟨(solve_ok_min StandardSudoku.spec cells h c hc).1,
      (solve_ok_min StandardSudoku.spec cells h c hc).2.2⟩, ?_⟩,
    fun cells h c hc => ⟨⟨(solve_ok_min MiniSudoku.spec cells h c hc).1,
      (solve_ok_min MiniSudoku.spec cells h c hc).2.2⟩, ?_⟩,
    fun cells h c hc => ⟨⟨(solve_ok_min HyperSudoku.spec cells h c hc).1,
      (solve_ok_min HyperSudoku.spec cells h c hc).2.2⟩, ?_⟩⟩
  all_goals
    intro c' hc'
    rw [hc] at hc'
    injection hc' with heq
    exact heq.symm

/-- Witness for C2 at the empty Mini grid. -/
theorem claim_C2_witness :
    (List.replicate 36 (none : Cell)).length = 36 ∧
    (∀ c, MiniSudoku.ops.solve (List.replicate 36 (none : Cell)) = .ok c →
      (validCompletion MiniSudoku.ops (List.replicate 36 (none : Cell)) c ∧
        ∀ h, validCompletion MiniSudoku.ops (List.replicate 36 (none : Cell)) h →
          lexLE MiniSudoku.ops c h) ∧
      ∀ c', MiniSudoku.ops.solve (List.replicate 36 (none : Cell)) = .ok c' → c' = c) :=
  ⟨by decide, claim_C2.2.1 (List.replicate 36 (none : Cell)) (by decide)⟩

/-- Claim C3: for every variant, when `solve` fails (either failure kind) the
grid it leaves behind equals the input grid cell for cell — every tentative
assignment has been reverted. -/
theorem claim_C3 :
    (∀ cells : List Cell, cells.length = 81 → ∀ m c,
      StandardSudoku.ops.solve cells = .err m c → c = cells) ∧
    (∀ cells : List Cell, cells.length = 36 → ∀ m c,
      MiniSudoku.ops.solve cells = .err m c → c = cells) ∧
    (∀ cells : List Cell, cells.length = 81 → ∀ m c,
      HyperSudoku.ops.solve cells = .err m c → c = cells) :=
  ⟨fun cells h m c hc => solve_err_restores StandardSudoku.spec cells h m c hc,
    fun cells h m c hc => solve_err_restores MiniSudoku.spec cells h m c hc,
    fun cells h m c hc => solve_err_restores HyperSudoku.spec cells h m c hc⟩

/-- Witness for C3 at an illegal Standard grid (two 1s in the first row). -/
theorem claim_C3_witness :
    (some 1 :: some 1 :: List.replicate 79 (none : Cell)).length = 81 ∧
    (∀ m c, StandardSudoku.ops.solve
        (some 1 :: some 1 :: List.replicate 79 (none : Cell)) = .err m c →
      c = some 1 :: some 1 :: List.replicate 79 (none : Cell)) :=
  ⟨by decide, claim_C3.1 (some 1 :: some 1 :: List.replicate 79 (none : Cell))
    (by decide)⟩

/-- Claim C9: for every variant, `solve` never alters a set cell: any
position holding a value before the call holds the same value after it,
whether the result is success or failure. -/
theorem claim_C9 :
    (∀ cells : List Cell, cells.length = 81 → ∀ p, p < 81 →
      (cells.getD p none).isSome = true →
      (finalCells (StandardSudoku.ops.solve cells)).getD p none =
        cells.getD p none) ∧
    (∀ cells : List Cell, cells.length = 36 → ∀ p, p < 36 →
      (cells.getD p none).isSome = true →
      (finalCells (MiniSudoku.ops.solve cells)).getD p none =
        cells.getD p none) ∧
    (∀ cells : List Cell, cells.length = 81 → ∀ p, p < 81 →
      (cells.getD p none).isSome = true →
      (finalCells (HyperSudoku.ops.solve cells)).getD p none =
        cells.getD p none) :=
  ⟨fun cells h p hp hs => solve_preserves_set_cells StandardSudoku.spec cells h p hp hs,
    fun cells h p hp hs => solve_preserves_set_cells MiniSudoku.spec cells h p hp hs,
    fun cells h p hp hs => solve_preserves_set_cells HyperSudoku.spec cells h p hp hs⟩

/-- Witness for C9 at a Standard grid with cell 0 set. -/
theorem claim_C9_witness :
    ((some 5 :: List.replicate 80 (none : Cell)).length = 81 ∧ (0 : Nat) < 81 ∧
      ((some 5 :: List.replicate 80 (none : Cell)).getD 0 none).isSome = true) ∧
    (finalCells (StandardSudoku.ops.solve
        (some 5 :: List.replicate 80 (none : Cell)))).getD 0 none =
      (some 5 :: List.replicate 80 (none : Cell)).getD 0 none :=
  ⟨⟨by decide, by decide, by decide⟩,
    claim_C9.1 (some 5 :: List.replicate 80 (none : Cell)) (by decide) 0
      (by decide) (by decide)⟩

/-- Claim C8: for every variant, a grid with two identical set values in one
group makes `legal` false; an illegal grid makes `solve` return the "cannot
solve illegal position" failure immediately, with the grid untouched (the
equation `solve cells = err illegalMsg cells` is produced by the first
`backtrack` call before any candidate is tried); and `solve` returns that
failure kind iff the input grid is illegal. -/
theorem claim_C8 :
    ((∀ (cells G : List Cell) (v : Nat), G ∈ StandardSudoku.ops.groups cells →
        2 ≤ G.count (some v) → StandardSudoku.ops.legal cells = false) ∧
      (∀ cells : List Cell, StandardSudoku.ops.legal cells = false →
        StandardSudoku.ops.solve cells = .err illegalMsg cells) ∧
      (∀ cells : List Cell, cells.length = 81 →
        (StandardSudoku.ops.solve cells = .err illegalMsg cells ↔
          StandardSudoku.ops.legal cells = false))) ∧
    ((∀ (cells G : List Cell) (v : Nat), G ∈ MiniSudoku.ops.groups cells →
        2 ≤ G.count (some v) → MiniSudoku.ops.legal cells = false) ∧
      (∀ cells : List Cell, MiniSudoku.ops.legal cells = false →
        MiniSudoku.ops.solve cells = .err illegalMsg cells) ∧
      (∀ cells : List Cell, cells.length = 36 →
        (MiniSudoku.ops.solve cells = .err illegalMsg cells ↔
          MiniSudoku.ops.legal cells = false))) ∧
    ((∀ (cells G : List Cell) (v : Nat), G ∈ HyperSudoku.ops.groups cells →
        2 ≤ G.count (some v) → HyperSudoku.ops.legal cells = false) ∧
      (∀ cells : List Cell, HyperSudoku.ops.legal cells = false →
        HyperSudoku.ops.solve cells = .err illegalMsg cells) ∧
      (∀ cells : List Cell, cells.length = 81 →
        (HyperSudoku.ops.solve cells = .err illegalMsg cells ↔
          HyperSudoku.ops.legal cells = false))) :=
  ⟨⟨fun cells G v hG hv => legal_false_of_dup StandardSudoku.ops cells G hG v hv,
      fun cells hleg => solve_illegal_eq StandardSudoku.ops cells hleg,
      fun cells h => solve_err_illegal_iff StandardSudoku.spec cells h⟩,
    ⟨fun cells G v hG hv => legal_false_of_dup MiniSudoku.ops cells G hG v hv,
      fun cells hleg => solve_illegal_eq MiniSudoku.ops cells hleg,
      fun cells h => solve_err_illegal_iff MiniSudoku.spec cells h⟩,
    ⟨fun cells G v hG hv => legal_false_of_dup HyperSudoku.ops cells G hG v hv,
      fun cells hleg => solve_illegal_eq HyperSudoku.ops cells hleg,
      fun cells h => solve_err_illegal_iff HyperSudoku.spec cells h⟩⟩

/-- Witness for C8 at a Mini grid with two 1s in the first row. -/
theorem claim_C8_witness :
    (some 1 :: some 1 :: List.replicate 34 (none : Cell)).length = 36 ∧
    (MiniSudoku.ops.solve (some 1 :: some 1 :: List.replicate 34 (none : Cell)) =
        .err illegalMsg (some 1 :: some 1 :: List.replicate 34 (none : Cell)) ↔
      MiniSudoku.ops.legal (some 1 :: some 1 :: List.replicate 34 (none : Cell)) =
        false) :=
  ⟨by decide,
    claim_C8.2.1.2.2 (some 1 :: some 1 :: List.replicate 34 (none : Cell))
      (by decide)⟩

/-- Claim C6: for every variant and every in-bounds cell `i`, `groups_of(i)`
is exactly the list of views of the grid through fixed index sets
(`gOfI i`), and each of those index sets contains `i` itself. -/
theorem claim_C6 :
    (∀ cells : List Cell, cells.length = 81 → ∀ i, i < 81 →
      StandardSudoku.groupsOf cells i =
        (StandardSudoku.gOfI i).map (mapIdx cells) ∧
      ∀ I ∈ StandardSudoku.gOfI i, i ∈ I) ∧
    (∀ cells : List Cell, cells.length = 36 → ∀ i, i < 36 →
      MiniSudoku.groupsOf cells i = (MiniSudoku.gOfI i).map (mapIdx cells) ∧
      ∀ I ∈ MiniSudoku.gOfI i, i ∈ I) ∧
    (∀ cells : List Cell, cells.length = 81 → ∀ i, i < 81 →
      HyperSudoku.groupsOf cells i = (HyperSudoku.gOfI i).map (mapIdx cells) ∧
      ∀ I ∈ HyperSudoku.gOfI i, i ∈ I) :=
  ⟨fun cells h i hi => ⟨StandardSudoku.std_groupsOf_eq cells h i hi,
      StandardSudoku.spec.gOf_mem i hi⟩,
    fun cells h i hi => ⟨MiniSudoku.mini_groupsOf_eq cells h i hi,
      MiniSudoku.spec.gOf_mem i hi⟩,
    fun cells h i hi => ⟨HyperSudoku.hyper_groupsOf_eq cells h i hi,
      HyperSudoku.spec.gOf_mem i hi⟩⟩

/-- Witness for C6 at the empty Standard grid and cell 40. -/
theorem claim_C6_witness :
    ((List.replicate 81 (none : Cell)).length = 81 ∧ (40 : Nat) < 81) ∧
    (StandardSudoku.groupsOf (List.replicate 81 (none : Cell)) 40 =
        (StandardSudoku.gOfI 40).map (mapIdx (List.replicate 81 (none : Cell))) ∧
      ∀ I ∈ StandardSudoku.gOfI 40, 40 ∈ I) :=
  ⟨⟨by decide, by decide⟩,
    claim_C6.1 (List.replicate 81 (none : Cell)) (by decide) 40 (by decide)⟩

/-- A 0-indexed row or column band of the Hyper extra regions: 1–3 or 5–7. -/
def inBand (x : Nat) : Prop := (1 ≤ x ∧ x ≤ 3) ∨ (5 ≤ x ∧ x ≤ 7)

instance (x : Nat) : Decidable (inBand x) := by unfold inBand; infer_instance

/-- The extra-region index (9..12) for a cell whose row and column both lie
in bands: regions 9, 10, 11, 12 sit at (row, col) offsets (1,1), (1,5),
(5,1), (5,5). -/
def hyperExtraIdx (r c : Nat) : Nat :=
  if r ≤ 3 then (if c ≤ 3 then 9 else 10) else (if c ≤ 3 then 11 else 12)

/-- Claim C5: for Hyper, `groups_of(i)` returns exactly 4 groups when both
the row and the column of `i` lie in a band (1–3 or 5–7), the fourth group
being the extra region containing `i`, whose top-left offsets are (1,1),
(1,5), (5,1), (5,5); and exactly 3 groups for every other in-bounds cell. -/
theorem claim_C5 : ∀ cells : List Cell, cells.length = 81 → ∀ i, i < 81 →
    ((inBand (i / 9) ∧ inBand (i % 9)) →
      (HyperSudoku.groupsOf cells i).length = 4 ∧
      (HyperSudoku.groupsOf cells i)[3]? =
        some (HyperSudoku.grid cells (hyperExtraIdx (i / 9) (i % 9))) ∧
      i ∈ HyperSudoku.gridI (hyperExtraIdx (i / 9) (i % 9)) ∧
      (HyperSudoku.gridOffset (hyperExtraIdx (i / 9) (i % 9)) / 9,
        HyperSudoku.gridOffset (hyperExtraIdx (i / 9) (i % 9)) % 9) ∈
          [(1, 1), (1, 5), (5, 1), (5, 5)]) ∧
    (¬(inBand (i / 9) ∧ inBand (i % 9)) →
      (HyperSudoku.groupsOf cells i).length = 3) := by
  have hidx : ∀ j, j < 81 →
      ((inBand (j / 9) ∧ inBand (j % 9)) →
        (HyperSudoku.gOfI j).length = 4 ∧
        (HyperSudoku.gOfI j)[3]? =
          some (HyperSudoku.gridI (hyperExtraIdx (j / 9) (j % 9))) ∧
        j ∈ HyperSudoku.gridI (hyperExtraIdx (j / 9) (j % 9))) ∧
      (¬(inBand (j / 9) ∧ inBand (j % 9)) →
        (HyperSudoku.gOfI j).length = 3) := by decide
  have hoffs : ∀ j, j < 81 →
      ((inBand (j / 9) ∧ inBand (j % 9)) →
        (HyperSudoku.gridOffset (hyperExtraIdx (j / 9) (j % 9)) / 9,
          HyperSudoku.gridOffset (hyperExtraIdx (j / 9) (j % 9)) % 9) ∈
            [(1, 1), (1, 5), (5, 1), (5, 5)]) := by decide
  intro cells h i hi
  rw [HyperSudoku.hyper_groupsOf_eq cells h i hi]
  constructor
  · intro hband
    obtain ⟨h4, hget, hmem⟩ := (hidx i hi).1 hband
    refine ⟨by rw [List.length_map, h4], ?_, hmem, hoffs i hi hband⟩
    rw [List.getElem?_map, hget]
    rfl
  · intro hnb
    rw [List.length_map, (hidx i hi).2 hnb]

/-- Witness for C5 at the empty grid and cell 20 (row 2, col 2: inside the
top-left extra region). -/
theorem claim_C5_witness :
    ((List.replicate 81 (none : Cell)).length = 81 ∧ (20 : Nat) < 81 ∧
      (inBand (20 / 9) ∧ inBand (20 % 9))) ∧
    ((HyperSudoku.groupsOf (List.replicate 81 (none : Cell)) 20).length = 4 ∧
      (HyperSudoku.groupsOf (List.replicate 81 (none : Cell)) 20)[3]? =
        some (HyperSudoku.grid (List.replicate 81 (none : Cell))
          (hyperExtraIdx (20 / 9) (20 % 9))) ∧
      20 ∈ HyperSudoku.gridI (hyperExtraIdx (20 / 9) (20 % 9)) ∧
      (HyperSudoku.gridOffset (hyperExtraIdx (20 / 9) (20 % 9)) / 9,
        HyperSudoku.gridOffset (hyperExtraIdx (20 / 9) (20 % 9)) % 9) ∈
          [(1, 1), (1, 5), (5, 1), (5, 5)]) :=
  ⟨⟨by decide, by decide, by decide⟩,
    (claim_C5 (List.replicate 81 (none : Cell)) (by decide) 20 (by decide)).1
      (by decide)⟩

/-- Modelled from the spec (the box arrangement claim C4 asserts for Mini):
six boxes, each 3 cells wide by 2 cells tall, arranged as 2 box-rows by
3 box-cols — box `i` at box-row `i / 3`, box-col `i % 3`, its top-left cell
at row `(i / 3) * 2`, column `(i % 3) * 3` of the 6-wide row-major grid. -/
def miniClaimedBoxI (i : Nat) : List Nat :=
  ((List.range 2).map (fun r => (List.range 3).map (fun c =>
    (i / 3 * 2 + r) * 6 + (i % 3 * 3 + c)))).flatten

/-- The box arrangement actually implemented by `MiniSudoku::grid`: box `g`
at box-row `g / 2` (3 box-rows, each 2 cells tall) and box-col `g % 2`
(2 box-cols, each 3 cells wide). -/
def miniActualBoxI (g : Nat) : List Nat :=
  ((List.range 2).map (fun r => (List.range 3).map (fun c =>
    (g / 2 * 2 + r) * 6 + (g % 2 * 3 + c)))).flatten

/-- A 6×6 marker grid with every cell holding its own index. -/
def miniMarker : List Cell := (List.range 36).map (fun j => some j)

/-- Counterexample to C4: on the marker grid, `grids()` does not return the
boxes of the claimed 2-box-rows × 3-box-cols tiling — indeed the claimed
third box is not any of the six groups `grids()` returns. -/
theorem claim_C4_counterexample :
    MiniSudoku.grids miniMarker ≠
      (List.range 6).map (fun i => mapIdx miniMarker (miniClaimedBoxI i)) ∧
    mapIdx miniMarker (miniClaimedBoxI 2) ∉ MiniSudoku.grids miniMarker := by
  constructor
  · decide
  · decide

/-- Amended claim C4: the six Mini boxes are each 3 cells wide by 2 cells
tall and tile the 6×6 grid as 3 box-rows by 2 box-cols; `grids()` returns
exactly these 6 groups of 6 cells, and `groups_of(i)`'s third group is the
box containing cell `i` under this tiling. -/
theorem claim_C4_amended : ∀ cells : List Cell, cells.length = 36 →
    MiniSudoku.grids cells =
      (List.range 6).map (fun g => mapIdx cells (miniActualBoxI g)) ∧
    (∀ g, g < 6 → (miniActualBoxI g).length = 6) ∧
    (∀ i, i < 36 →
      (MiniSudoku.groupsOf cells i)[2]? =
        some (mapIdx cells (miniActualBoxI (i / 6 / 2 * 2 + i % 6 / 3))) ∧
      i ∈ miniActualBoxI (i / 6 / 2 * 2 + i % 6 / 3)) := by
  have hbox : ∀ g, g < 6 → MiniSudoku.boxI g = miniActualBoxI g := by decide
  have hboxlen : ∀ g, g < 6 → (miniActualBoxI g).length = 6 := by decide
  have hboxidx : ∀ i, i < 36 → i / 6 / 2 * 2 + i % 6 / 3 < 6 ∧
      i ∈ miniActualBoxI (i / 6 / 2 * 2 + i % 6 / 3) := by decide
  intro cells h
  refine ⟨?_, hboxlen, ?_⟩
  · rw [MiniSudoku.mini_grids_eq cells h]
    apply List.map_congr_left
    intro g hg
    rw [hbox g (List.mem_range.mp hg)]
  · intro i hi
    rw [MiniSudoku.mini_groupsOf_eq cells h i hi]
    refine ⟨?_, (hboxidx i hi).2⟩
    rw [List.getElem?_map]
    show Option.map (mapIdx cells) (some (MiniSudoku.boxI (i / 6 / 2 * 2 + i % 6 / 3))) = _
    rw [hbox _ (hboxidx i hi).1]
    rfl

/-- Witness for the amended C4 at the marker grid. -/
theorem claim_C4_amended_witness :
    miniMarker.length = 36 ∧
    (MiniSudoku.grids miniMarker =
        (List.range 6).map (fun g => mapIdx miniMarker (miniActualBoxI g)) ∧
      (∀ g, g < 6 → (miniActualBoxI g).length = 6) ∧
      (∀ i, i < 36 →
        (MiniSudoku.groupsOf miniMarker i)[2]? =
          some (mapIdx miniMarker (miniActualBoxI (i / 6 / 2 * 2 + i % 6 / 3))) ∧
        i ∈ miniActualBoxI (i / 6 / 2 * 2 + i % 6 / 3))) :=
  ⟨by decide, claim_C4_amended miniMarker (by decide)⟩

/-- Claim C7: for every variant, parsing the string produced by formatting a
grid (whose cells satisfy the data-model invariant: empty or in the legal
value range) yields that grid back, and formatting any grid of the variant's
cell count yields a string of exactly that many characters (81 for
Standard/Hyper, 36 for Mini). -/
theorem claim_C7 :
    ((∀ cells : List Cell, cells.length = 81 →
        (∀ c ∈ cells, cellInRange 9 c = true) →
        StandardSudoku.parse (StandardSudoku.format cells) = .ok cells) ∧
      ∀ cells : List Cell, cells.length = 81 →
        (StandardSudoku.format cells).length = 81) ∧
    ((∀ cells : List Cell, cells.length = 36 →
        (∀ c ∈ cells, cellInRange 6 c = true) →
        MiniSudoku.parse (MiniSudoku.format cells) = .ok cells) ∧
      ∀ cells : List Cell, cells.length = 36 →
        (MiniSudoku.format cells).length = 36) ∧
    ((∀ cells : List Cell, cells.length = 81 →
        (∀ c ∈ cells, cellInRange 9 c = true) →
        HyperSudoku.parse (HyperSudoku.format cells) = .ok cells) ∧
      ∀ cells : List Cell, cells.length = 81 →
        (HyperSudoku.format cells).length = 81) :=
  ⟨⟨fun cells h hr => StandardSudoku.std_parse_format cells h hr,
      fun cells h => by rw [StandardSudoku.std_format_length, h]⟩,
    ⟨fun cells h hr => MiniSudoku.mini_parse_format cells h hr,
      fun cells h => by rw [MiniSudoku.mini_format_length, h]⟩,
    ⟨fun cells h hr => HyperSudoku.hyper_parse_format cells h hr,
      fun cells h => by rw [HyperSudoku.hyper_format_length, h]⟩⟩

/-- Witness for C7 at a Mini grid with one set cell. -/
theorem claim_C7_witness :
    ((some 3 :: List.replicate 35 (none : Cell)).length = 36 ∧
      (∀ c ∈ some 3 :: List.replicate 35 (none : Cell), cellInRange 6 c = true)) ∧
    MiniSudoku.parse (MiniSudoku.format
        (some 3 :: List.replicate 35 (none : Cell))) =
      .ok (some 3 :: List.replicate 35 (none : Cell)) :=
  ⟨⟨by decide, by decide⟩,
    claim_C7.2.1.1 (some 3 :: List.replicate 35 (none : Cell)) (by decide)
      (by decide)⟩

/-- Claim C10: for every variant, `set(i, Some v)` with `v` outside the legal
range is a panic (modelled `none`) reached before any write; an
out-of-bounds index to `get`/`set` likewise aborts; `set` never clamps,
wraps, or stores an out-of-range value, so it preserves the invariant that
every stored cell is empty or holds a value in `1..=N`. -/
theorem claim_C10 :
    ((∀ (cells : List Cell) (i v : Nat), ¬(1 ≤ v ∧ v ≤ 9) →
        StandardSudoku.set cells i (some v) = none) ∧
      (∀ (cells : List Cell) (i : Nat) (num : Cell), cells.length ≤ i →
        StandardSudoku.set cells i num = none) ∧
      (∀ (cells : List Cell) (i : Nat), cells.length ≤ i →
        StandardSudoku.get cells i = none) ∧
      (∀ (cells : List Cell) (i : Nat) (num : Cell) (cells' : List Cell),
        StandardSudoku.set cells i num = some cells' →
        (∀ c ∈ cells, cellInRange 9 c = true) →
        ∀ c ∈ cells', cellInRange 9 c = true)) ∧
    ((∀ (cells : List Cell) (i v : Nat), ¬(1 ≤ v ∧ v ≤ 6) →
        MiniSudoku.set cells i (some v) = none) ∧
      (∀ (cells : List Cell) (i : Nat) (num : Cell), cells.length ≤ i →
        MiniSudoku.set cells i num = none) ∧
      (∀ (cells : List Cell) (i : Nat), cells.length ≤ i →
        MiniSudoku.get cells i = none) ∧
      (∀ (cells : List Cell) (i : Nat) (num : Cell) (cells' : List Cell),
        MiniSudoku.set cells i num = some cells' →
        (∀ c ∈ cells, cellInRange 6 c = true) →
        ∀ c ∈ cells', cellInRange 6 c = true)) ∧
    ((∀ (cells : List Cell) (i v : Nat), ¬(1 ≤ v ∧ v ≤ 9) →
        HyperSudoku.set cells i (some v) = none) ∧
      (∀ (cells : List Cell) (i : Nat) (num : Cell), cells.length ≤ i →
        HyperSudoku.set cells i num = none) ∧
      (∀ (cells : List Cell) (i : Nat), cells.length ≤ i →
        HyperSudoku.get cells i = none) ∧
      (∀ (cells : List Cell) (i : Nat) (num : Cell) (cells' : List Cell),
        HyperSudoku.set cells i num = some cells' →
        (∀ c ∈ cells, cellInRange 9 c = true) →
        ∀ c ∈ cells', cellInRange 9 c = true)) := by
  refine ⟨⟨?_, ?_, ?_, ?_⟩, ⟨?_, ?_, ?_, ?_⟩, ⟨?_, ?_, ?_, ?_⟩⟩
  case refine_1 =>
    intro cells i v hv
    unfold StandardSudoku.set
    dsimp only
    rw [if_neg hv]
  case refine_5 =>
    intro cells i v hv
    unfold MiniSudoku.set
    dsimp only
    rw [if_neg hv]
  case refine_9 =>
    intro cells i v hv
    unfold HyperSudoku.set
    dsimp only
    rw [if_neg hv]
  case refine_2 =>
    intro cells i num hle
    unfold StandardSudoku.set
    match num with
    | some v =>
      dsimp only
      by_cases hv : 1 ≤ v ∧ v ≤ 9
      · rw [if_pos hv, if_neg (by omega)]
      · rw [if_neg hv]
    | none =>
      dsimp only
      rw [if_neg (by omega)]
  case refine_6 =>
    intro cells i num hle
    unfold MiniSudoku.set
    match num with
    | some v =>
      dsimp only
      by_cases hv : 1 ≤ v ∧ v ≤ 6
      · rw [if_pos hv, if_neg (by omega)]
      · rw [if_neg hv]
    | none =>
      dsimp only
      rw [if_neg (by omega)]
  case refine_10 =>
    intro cells i num hle
    unfold HyperSudoku.set
    match num with
    | some v =>
      dsimp only
      by_cases hv : 1 ≤ v ∧ v ≤ 9
      · rw [if_pos hv, if_neg (by omega)]
      · rw [if_neg hv]
    | none =>
      dsimp only
      rw [if_neg (by omega)]
  case refine_3 =>
    intro cells i hle
    unfold StandardSudoku.get
    exact List.getElem?_eq_none hle
  case refine_7 =>
    intro cells i hle
    unfold MiniSudoku.get
    exact List.getElem?_eq_none hle
  case refine_11 =>
    intro cells i hle
    unfold HyperSudoku.get
    exact List.getElem?_eq_none hle
  case refine_4 =>
    intro cells i num cells' hset hinv c hc
    unfold StandardSudoku.set at hset
    match num, hset with
    | some v, hset =>
      dsimp only at hset
      by_cases hv : 1 ≤ v ∧ v ≤ 9
      · rw [if_pos hv] at hset
        by_cases hi : i < cells.length
        · rw [if_pos hi] at hset
          injection hset with hset
          subst hset
          rcases List.mem_or_eq_of_mem_set hc with hmem | rfl
          · exact hinv c hmem
          · simp [cellInRange]
            omega
        · rw [if_neg hi] at hset
          exact Option.noConfusion hset
      · rw [if_neg hv] at hset
        exact Option.noConfusion hset
    | none, hset =>
      dsimp only at hset
      by_cases hi : i < cells.length
      · rw [if_pos hi] at hset
        injection hset with hset
        subst hset
        rcases List.mem_or_eq_of_mem_set hc with hmem | rfl
        · exact hinv c hmem
        · rfl
      · rw [if_neg hi] at hset
        exact Option.noConfusion hset
  case refine_8 =>
    intro cells i num cells' hset hinv c hc
    unfold MiniSudoku.set at hset
    match num, hset with
    | some v, hset =>
      dsimp only at hset
      by_cases hv : 1 ≤ v ∧ v ≤ 6
      · rw [if_pos hv] at hset
        by_cases hi : i < cells.length
        · rw [if_pos hi] at hset
          injection hset with hset
          subst hset
          rcases List.mem_or_eq_of_mem_set hc with hmem | rfl
          · exact hinv c hmem
          · simp [cellInRange]
            omega
        · rw [if_neg hi] at hset
          exact Option.noConfusion hset
      · rw [if_neg hv] at hset
        exact Option.noConfusion hset
    | none, hset =>
      dsimp only at hset
      by_cases hi : i < cells.length
      · rw [if_pos hi] at hset
        injection hset with hset
        subst hset
        rcases List.mem_or_eq_of_mem_set hc with hmem | rfl
        · exact hinv c hmem
        · rfl
      · rw [if_neg hi] at hset
        exact Option.noConfusion hset
  case refine_12 =>
    intro cells i num cells' hset hinv c hc
    unfold HyperSudoku.set at hset
    match num, hset with
    | some v, hset =>
      dsimp only at hset
      by_cases hv : 1 ≤ v ∧ v ≤ 9
      · rw [if_pos hv] at hset
        by_cases hi : i < cells.length
        · rw [if_pos hi] at hset
          injection hset with hset
          subst hset
          rcases List.mem_or_eq_of_mem_set hc with hmem | rfl
          · exact hinv c hmem
          · simp [cellInRange]
            omega
        · rw [if_neg hi] at hset
          exact Option.noConfusion hset
      · rw [if_neg hv] at hset
        exact Option.noConfusion hset
    | none, hset =>
      dsimp only at hset
      by_cases hi : i < cells.length
      · rw [if_pos hi] at hset
        injection hset with hset
        subst hset
        rcases List.mem_or_eq_of_mem_set hc with hmem | rfl
        · exact hinv c hmem
        · rfl
      · rw [if_neg hi] at hset
        exact Option.noConfusion hset

/-- Witness for C10: value 7 is rejected by Mini's `set` (range 1..=6). -/
theorem claim_C10_witness :
    ¬(1 ≤ 7 ∧ 7 ≤ 6) ∧
    MiniSudoku.set (List.replicate 36 (none : Cell)) 0 (some 7) = none :=
  ⟨by decide,
    claim_C10.2.1.1 (List.replicate 36 (none : Cell)) 0 7 (by decide)⟩
